import Mathlib

/-!
# savr: serial transport (`lib/sci.cpp`) and pin access (`include/savr/gpio.h`)

A shallow embedding of the interrupt driven serial transport and of the
template pin operations, followed by the properties proved about them.

Conventions of the embedding.

* Bytes (`uint8_t`, `char`) are natural numbers.  The result of an arithmetic
  or bitwise expression, which C computes in `int` or wider, is reduced modulo
  `256` when it is stored into an 8-bit object; a byte copied from one 8-bit
  object to another is copied as it is.  A `char` is represented by its byte
  pattern, so `'\n'` is `10` and `'\r'` is `13`.
* `~x` on a promoted 8-bit operand is the 16-bit complement `65535 ^^^ x`
  (`int` is 16 bits wide on the AVR targets).
* `_BV(b)` is `1 <<< b`.
* Names that the chip headers supply (bit positions, `F_CPU`, port addresses)
  are fields of a configuration record.
* The two blocking loops carry a fuel argument; running out of fuel stands
  for a call that is still spinning.
-/

namespace Savr

/-! ## The queue behind `IOBuffer` -/

/-- Modelled from the spec: the class template `Queue<T, N>` of `savr/queue.h`,
which is not among the sources.  A backing array of capacity `N`, a count of
occupied slots and head and tail cursors. -/
structure Queue (N : Nat) where
  data : List Nat
  head : Nat
  tail : Nat
  count : Nat
deriving DecidableEq

namespace Queue

variable {N : Nat}

/-- Modelled from the spec: `Queue::Enq` of `savr/queue.h`.  If `count == N`
it fails (non-zero error code) and leaves the buffer unchanged; otherwise it
writes the value at `tail`, advances `tail` modulo `N` and increments `count`.
The result is the error code and the buffer afterwards. -/
def Enq (q : Queue N) (value : Nat) : Nat × Queue N :=
  if q.count = N then (1, q)
  else (0, { data := q.data.set q.tail value
             head := q.head
             tail := (q.tail + 1) % N
             count := q.count + 1 })

/-- Modelled from the spec: `Queue::Deq` of `savr/queue.h`.  If `count == 0`
it fails (non-zero error code); otherwise it reads the value at `head` into
the target, advances `head` modulo `N` and decrements `count`.  The argument
`target` is the prior content of the object the caller passes by pointer; the
result is the error code, the content of that object afterwards, and the
buffer afterwards. -/
def Deq (q : Queue N) (target : Nat) : Nat × Nat × Queue N :=
  if q.count = 0 then (1, target, q)
  else (0, q.data.getD q.head 0,
        { data := q.data
          head := (q.head + 1) % N
          tail := q.tail
          count := q.count - 1 })

/-- Modelled from the spec: `Queue::Size` of `savr/queue.h`: the count. -/
def Size (q : Queue N) : Nat := q.count

/-- The buffer as it is at start-up: no occupied slot, both cursors at the
first slot. -/
def empty (N : Nat) : Queue N :=
  { data := List.replicate N 0, head := 0, tail := 0, count := 0 }

/-- The occupied slots read from the head cursor onwards: the bytes a run of
successful dequeues would deliver, oldest first. -/
def contents (q : Queue N) : List Nat :=
  (List.range q.count).map (fun i => q.data.getD ((q.head + i) % N) 0)

/-- Representation invariant of the ring: the array has `N` slots, the head
cursor is in range, at most `N` slots are occupied and the tail cursor is
`count` slots past the head, modulo `N`. -/
def WF (q : Queue N) : Prop :=
  q.data.length = N ∧ q.head < N ∧ q.count ≤ N ∧ q.tail = (q.head + q.count) % N

instance (q : Queue N) : Decidable q.WF := by
  unfold WF; infer_instance

end Queue

/-- The buffer type of the transport: `typedef Queue<uint8_t, 8> IOBuffer`. -/
abbrev IOBuffer := Queue 8

/-! ## The serial transport -/

/-- Names supplied by the chip header and the build: the bit positions used in
control registers B and C, the value of `__CTRLC_ENABLE`, `F_CPU`, and whether
the compiler makes plain `char` a signed type. -/
structure SciConfig where
  UDRIE : Nat
  RXCIE : Nat
  RXEN : Nat
  TXEN : Nat
  UCSZ1 : Nat
  UCSZ0 : Nat
  CTRLC_ENABLE : Nat
  F_CPU : Nat
  charSigned : Bool
deriving DecidableEq

/-- The ATmega328P at 16 MHz: `UDRIE0 = 5`, `RXCIE0 = 7`, `RXEN0 = 4`,
`TXEN0 = 3`, `UCSZ01 = 2`, `UCSZ00 = 1`, `__CTRLC_ENABLE = 0`; plain `char` is
signed, as avr-gcc makes it unless told otherwise. -/
def atmega328p : SciConfig :=
  { UDRIE := 5, RXCIE := 7, RXEN := 4, TXEN := 3, UCSZ1 := 2, UCSZ0 := 1,
    CTRLC_ENABLE := 0, F_CPU := 16000000, charSigned := true }

/-- The two file-scope buffers a stream can point at. -/
inductive BufferRef where
  | TxBuffer
  | RxBuffer
deriving DecidableEq

/-- The two file-scope stream objects. -/
inductive FileRef where
  | mystdout
  | mystdin
deriving DecidableEq

/-- The C function a stream slot refers to. -/
inductive StreamFn where
  | PutChar
  | GetChar
deriving DecidableEq

/-- The open mode passed to `fdev_setup_stream`. -/
inductive StreamFlags where
  | FDEV_SETUP_READ
  | FDEV_SETUP_WRITE
deriving DecidableEq

/-- The fields of a `FILE` that `fdev_setup_stream` and `fdev_set_udata`
assign.  A zero-initialised object has every field empty. -/
structure FILE where
  put : Option StreamFn
  get : Option StreamFn
  flags : Option StreamFlags
  udata : Option BufferRef
deriving DecidableEq

/-- State of the transport: the two buffers, the peripheral registers the
code touches, the two stream objects and the `stdout` and `stdin` pointers. -/
structure SciState where
  TxBuffer : IOBuffer
  RxBuffer : IOBuffer
  BAUD_HIGH : Nat
  BAUD_LOW : Nat
  CTRLB : Nat
  CTRLC : Nat
  DATAR : Nat
  mystdout : FILE
  mystdin : FILE
  stdout : Option FileRef
  stdin : Option FileRef
deriving DecidableEq

namespace SciState

/-- Dereference a stream pointer. -/
def file (s : SciState) : FileRef → FILE
  | .mystdout => s.mystdout
  | .mystdin => s.mystdin

/-- Dereference a buffer pointer. -/
def buf (s : SciState) : BufferRef → IOBuffer
  | .TxBuffer => s.TxBuffer
  | .RxBuffer => s.RxBuffer

/-- Store through a buffer pointer. -/
def setBuf (s : SciState) : BufferRef → IOBuffer → SciState
  | .TxBuffer, q => { s with TxBuffer := q }
  | .RxBuffer, q => { s with RxBuffer := q }

end SciState

/-- Ways a call fails to deliver a state: the stream carries no buffer
(`fdev_get_udata` gave a null pointer), or the busy-wait loop is still
spinning when the fuel is used up. -/
inductive Fault where
  | nullBuffer
  | spinning
deriving DecidableEq

/-- The loop `do { err = buff->Enq(input); } while(err);` of `PutChar`, with no
interrupt running in between. -/
def enqLoop : Nat → IOBuffer → Nat → Option IOBuffer
  | 0, _, _ => none
  | fuel + 1, buff, input =>
    match buff.Enq input with
    | (0, buff') => some buff'
    | (_, buff') => enqLoop fuel buff' input

/-- The function `PutChar(char input, FILE *stream)`: a line-feed is preceded
by a recursive call writing a carriage-return; then the byte is enqueued on
the buffer of the stream, retrying until it succeeds, and the transmit-ready
interrupt enable bit of control register B is set.  The C return value is
always `0` and is not represented; the result is the state on return. -/
def PutChar (c : SciConfig) : Nat → Nat → FileRef → SciState → Except Fault SciState
  | 0, _, _, _ => .error .spinning
  | fuel + 1, input, stream, s =>
    match (if input = 10 then PutChar c fuel 13 stream s else .ok s) with
    | .error e => .error e
    | .ok s1 =>
      match (s1.file stream).udata with
      | none => .error .nullBuffer
      | some buff =>
        match enqLoop fuel (s1.buf buff) input with
        | none => .error .spinning
        | some q =>
          .ok { s1.setBuf buff q with CTRLB := (s1.CTRLB ||| (1 <<< c.UDRIE)) % 256 }

/-- The loop `do { err = buff->Deq(&ret_val); } while(err);` of `GetChar`, with
no interrupt running in between.  The result is the byte left in `ret_val` and
the buffer afterwards. -/
def deqLoop : Nat → IOBuffer → Nat → Option (Nat × IOBuffer)
  | 0, _, _ => none
  | fuel + 1, buff, ret_val =>
    match buff.Deq ret_val with
    | (0, v, buff') => some (v, buff')
    | (_, v, buff') => deqLoop fuel buff' v

/-- The conversion of a `char` holding the byte `v` to `int`: the byte itself
when plain `char` is unsigned or the byte is below `0x80`, and the byte less
`256` when plain `char` is signed and the byte is `0x80` or above. -/
def charToInt (signed : Bool) (v : Nat) : Int :=
  if signed = true ∧ 128 ≤ v then (v : Int) - 256 else (v : Int)

/-- The function `GetChar(FILE *stream)`: dequeues from the buffer of the
stream into the `char ret_val`, retrying until it succeeds, and returns
`ret_val` through the `int` return type.  The local starts out as `0` here, a
value that is never returned because the loop only ends on a successful
dequeue. -/
def GetChar (c : SciConfig) : Nat → FileRef → SciState → Except Fault (Int × SciState)
  | fuel, stream, s =>
    match (s.file stream).udata with
    | none => .error .nullBuffer
    | some buff =>
      match deqLoop fuel (s.buf buff) 0 with
      | none => .error .spinning
      | some (ret_val, q) => .ok (charToInt c.charSigned ret_val, s.setBuf buff q)

/-- The function `SCI::Size(FILE *stream)`: the size of the buffer of the
stream. -/
def Size (stream : FileRef) (s : SciState) : Except Fault Nat :=
  match (s.file stream).udata with
  | none => .error .nullBuffer
  | some buff => .ok (s.buf buff).Size

/-- The macro `__GETBAUD(base, baud)`, that is `base/16/(baud)-1`, evaluated
in 32-bit unsigned arithmetic (`baud` is a `uint32_t`).  A zero `baud` is a
division by zero, which has no defined result in C: there is no value then. -/
def GETBAUD (base baud : Nat) : Option Nat :=
  if baud = 0 then none else some ((base / 16 / baud + (2 ^ 32 - 1)) % 2 ^ 32)

/-- The function `SCI::Init(uint32_t baud)`.  Its first statement evaluates
`__GETBAUD(F_CPU, baud)`; when that has no value (a zero `baud`) the call
delivers no state. -/
def Init (c : SciConfig) (baud : Nat) (s : SciState) : Option SciState :=
  match GETBAUD c.F_CPU baud with
  | none => none
  | some v =>
    let brate := v % 2 ^ 16
    let wr : FILE :=
      { put := some .PutChar, get := none, flags := some .FDEV_SETUP_WRITE, udata := none }
    let rd : FILE :=
      { put := none, get := some .GetChar, flags := some .FDEV_SETUP_READ, udata := none }
    some { s with
      BAUD_HIGH := (brate >>> 8) % 256
      BAUD_LOW := brate % 256
      CTRLB := ((1 <<< c.RXCIE) ||| (1 <<< c.RXEN) ||| (1 <<< c.TXEN)) % 256
      CTRLC := (c.CTRLC_ENABLE ||| (1 <<< c.UCSZ1) ||| (1 <<< c.UCSZ0)) % 256
      stdout := some .mystdout
      stdin := some .mystdin
      mystdout := { wr with udata := some .TxBuffer }
      mystdin := { rd with udata := some .RxBuffer } }

/-- The receive handler `ISR(__RX_VECT)`: reads the data register once and
enqueues the byte on `RxBuffer`, ignoring the error code. -/
def ISR_RX (s : SciState) : SciState :=
  let rx_data := s.DATAR
  { s with RxBuffer := (s.RxBuffer.Enq rx_data).2 }

/-- The transmit-ready handler `ISR(__TX_VECT)`: dequeues from `TxBuffer`; on
an error it clears the transmit-ready interrupt enable bit of control register
B, otherwise it writes the byte to the data register.  The local `tx_data` is
uninitialised in C; it starts out as `0` here and is only read after a
successful dequeue has overwritten it. -/
def ISR_TX (c : SciConfig) (s : SciState) : SciState :=
  match s.TxBuffer.Deq 0 with
  | (err, tx_data, q) =>
    if err ≠ 0 then
      { s with TxBuffer := q, CTRLB := (s.CTRLB &&& (65535 ^^^ (1 <<< c.UDRIE))) % 256 }
    else
      { s with TxBuffer := q, DATAR := tx_data }

/-- The hardware latches a received byte into the data register and the
receive handler runs. -/
def receive (b : Nat) (s : SciState) : SciState :=
  ISR_RX { s with DATAR := b }

/-- A transport state with both buffers as at start-up, every register zero
and both stream objects zero-initialised. -/
def resetState : SciState :=
  { TxBuffer := Queue.empty 8, RxBuffer := Queue.empty 8,
    BAUD_HIGH := 0, BAUD_LOW := 0, CTRLB := 0, CTRLC := 0, DATAR := 0,
    mystdout := { put := none, get := none, flags := none, udata := none },
    mystdin := { put := none, get := none, flags := none, udata := none },
    stdout := none, stdin := none }

/-- The state `Init(9600)` delivers on an ATmega328P started from
`resetState`. -/
def readyState : SciState :=
  (Init atmega328p 9600 resetState).getD resetState

/-! ## Pin access -/

/-- The port letters the header knows of, in the order of its `#ifdef` chain. -/
inductive PortName where
  | A | B | C | D | E | F | G | H | J | K | L
deriving DecidableEq

/-- What the chip header supplies to `gpio.h`: which of the `PORTx` names are
defined, and the address each one stands for. -/
structure GpioConfig where
  present : PortName → Bool
  addr : PortName → Int

/-- Every port letter, in the order of the `#ifdef` chain. -/
def allPorts : List PortName :=
  [.A, .B, .C, .D, .E, .F, .G, .H, .J, .K, .L]

/-- The table `PortBanks[]`: the address of the output register of every port
that is present, in the order of the `#ifdef` chain. -/
def PortBanks (g : GpioConfig) : List Int :=
  (allPorts.filter g.present).map g.addr

/-- The macro `MAKEPINS(x)`: the eight enumerators `x0 .. x7` of a port. -/
def MAKEPINS (x : PortName) : List (PortName × Nat) :=
  [(x, 0), (x, 1), (x, 2), (x, 3), (x, 4), (x, 5), (x, 6), (x, 7)]

/-- The enumerators of `enum Pin` that precede `NONE`, in declaration order;
the value of an enumerator is its position in this list. -/
def pinEnumerators (g : GpioConfig) : List (PortName × Nat) :=
  (allPorts.filter g.present).flatMap MAKEPINS

/-- The enumerator `NONE`: it follows all the pin enumerators, so its value is
their number. -/
def NONE (g : GpioConfig) : Nat :=
  (pinEnumerators g).length

/-- The register file as seen through data addresses: one byte per address. -/
abbrev Mem := Int → Nat

/-- Every cell of the register file holds a byte. -/
def Mem.Bytes (m : Mem) : Prop := ∀ a, m a < 256

/-- The function `PORTOF(x)`: the output register `*(PortBanks[x])`, as an
address; there is none when `x` is past the end of the table. -/
def PORTOF (g : GpioConfig) (x : Nat) : Option Int :=
  (PortBanks g)[x]?

/-- The function `DDROF(x)`: the direction register `*(PortBanks[x]-1)`. -/
def DDROF (g : GpioConfig) (x : Nat) : Option Int :=
  ((PortBanks g)[x]?).map (fun a => a - 1)

/-- The function `PINOF(x)`: the input register `*(PortBanks[x]-2)`. -/
def PINOF (g : GpioConfig) (x : Nat) : Option Int :=
  ((PortBanks g)[x]?).map (fun a => a - 2)

/-- The template `Get<pin>()`: `1` when the bit of the pin is set in the input
register of its port, `0` otherwise.  The register file is returned as well, as
the function left it. -/
def Get (g : GpioConfig) (pin : Nat) (m : Mem) : Option (Nat × Mem) :=
  let _port := (pin / 8) % 256
  let _pin := (1 <<< (pin % 8)) % 256
  match PINOF g _port with
  | none => none
  | some a => some (if (m a &&& _pin) ≠ 0 then 1 else 0, m)

/-- The template `High<pin>()`: `PORTOF(_port) |= _pin`. -/
def High (g : GpioConfig) (pin : Nat) (m : Mem) : Option Mem :=
  let _port := (pin / 8) % 256
  let _pin := (1 <<< (pin % 8)) % 256
  match PORTOF g _port with
  | none => none
  | some a => some (Function.update m a ((m a ||| _pin) % 256))

/-- The template `Low<pin>()`: `PORTOF(_port) &= ~_pin`. -/
def Low (g : GpioConfig) (pin : Nat) (m : Mem) : Option Mem :=
  let _port := (pin / 8) % 256
  let _pin := (1 <<< (pin % 8)) % 256
  match PORTOF g _port with
  | none => none
  | some a => some (Function.update m a ((m a &&& (65535 ^^^ _pin)) % 256))

/-- The template `In<pin>()`: `DDROF(_port) &= ~_pin`. -/
def In (g : GpioConfig) (pin : Nat) (m : Mem) : Option Mem :=
  let _port := (pin / 8) % 256
  let _pin := (1 <<< (pin % 8)) % 256
  match DDROF g _port with
  | none => none
  | some a => some (Function.update m a ((m a &&& (65535 ^^^ _pin)) % 256))

/-- The template `Out<pin>()`: `DDROF(_port) |= _pin`. -/
def Out (g : GpioConfig) (pin : Nat) (m : Mem) : Option Mem :=
  let _port := (pin / 8) % 256
  let _pin := (1 <<< (pin % 8)) % 256
  match DDROF g _port with
  | none => none
  | some a => some (Function.update m a ((m a ||| _pin) % 256))

/-- The template `Set<pin>(uint8_t set)`: `High` for a non-zero argument,
`Low` for zero. -/
def Set (g : GpioConfig) (pin : Nat) (set : Nat) (m : Mem) : Option Mem :=
  if set ≠ 0 then High g pin m else Low g pin m

/-- The template `Toggle<pin>()`: `Low` when the bit of the pin is set in the
output register of its port, `High` otherwise. -/
def Toggle (g : GpioConfig) (pin : Nat) (m : Mem) : Option Mem :=
  let _port := (pin / 8) % 256
  let _pin := (1 <<< (pin % 8)) % 256
  match PORTOF g _port with
  | none => none
  | some a => if (m a &&& _pin) ≠ 0 then Low g pin m else High g pin m

/-- The ports B, C and D of an ATmega328P with their data addresses
(`PORTB = 0x25`, `PORTC = 0x28`, `PORTD = 0x2B`). -/
def atmega328pPorts : GpioConfig :=
  { present := fun p => p = .B || p = .C || p = .D
    addr := fun p =>
      match p with
      | .B => 0x25
      | .C => 0x28
      | .D => 0x2B
      | _ => 0 }

/-! ## Event sequences of the transport -/

/-- The things that can happen to the transport: a receive interrupt
delivering a byte, a transmit-ready interrupt, a call of `PutChar` on the
output stream and a call of `GetChar` on the input stream. -/
inductive Event where
  | rx (b : Nat)
  | tx
  | write (b : Nat)
  | read
deriving DecidableEq

/-- The state after one event; the two calls may fail to return. -/
def applyEvent (c : SciConfig) (fuel : Nat) (s : SciState) : Event → Except Fault SciState
  | .rx b => .ok (receive b s)
  | .tx => .ok (ISR_TX c s)
  | .write b => PutChar c fuel b .mystdout s
  | .read =>
    match GetChar c fuel .mystdin s with
    | .error e => .error e
    | .ok (_, s') => .ok s'

/-- The state after a sequence of events, oldest first. -/
def runEvents (c : SciConfig) (fuel : Nat) : SciState → List Event → Except Fault SciState
  | s, [] => .ok s
  | s, e :: es =>
    match applyEvent c fuel s e with
    | .error err => .error err
    | .ok s' => runEvents c fuel s' es

/-- The event finds what it needs: a write finds room for every byte it
enqueues (two for a line-feed, one otherwise), a read finds data.  The
interrupts need nothing. -/
def Event.ready (s : SciState) : Event → Bool
  | .rx _ => true
  | .tx => true
  | .write b => decide (s.TxBuffer.count + (if b = 10 then 2 else 1) ≤ 8)
  | .read => decide (s.RxBuffer.count ≠ 0)

/-- Every event of the sequence is ready in the state it is applied to. -/
def admissible (c : SciConfig) (fuel : Nat) : SciState → List Event → Bool
  | _, [] => true
  | s, e :: es =>
    e.ready s &&
      match applyEvent c fuel s e with
      | .error _ => true
      | .ok s' => admissible c fuel s' es

/-- Both streams carry the buffer `Init` gives them: the output stream the
transmit buffer, the input stream the receive buffer. -/
def Bound (s : SciState) : Prop :=
  s.mystdout.udata = some .TxBuffer ∧ s.mystdin.udata = some .RxBuffer

instance (s : SciState) : Decidable (Bound s) := by
  unfold Bound; infer_instance

/-- The state after a run of receive interrupts delivering the given bytes. -/
def receiveAll : List Nat → SciState → SciState
  | [], s => s
  | b :: bs, s => receiveAll bs (receive b s)

/-- A run of `n` calls of `GetChar` on the input stream: the values returned,
in call order, and the state afterwards. -/
def readN (c : SciConfig) (fuel : Nat) : Nat → SciState → Except Fault (List Int × SciState)
  | 0, s => .ok ([], s)
  | n + 1, s =>
    match GetChar c fuel .mystdin s with
    | .error e => .error e
    | .ok (v, s1) =>
      match readN c fuel n s1 with
      | .error e => .error e
      | .ok (vs, s2) => .ok (v :: vs, s2)

/-! ## States used to state the results -/

/-- The state `PutChar` leaves after its loop has enqueued one byte. -/
def afterPut (c : SciConfig) (input : Nat) (s : SciState) : SciState :=
  { s with
    TxBuffer := (s.TxBuffer.Enq input).2
    CTRLB := (s.CTRLB ||| (1 <<< c.UDRIE)) % 256 }

/-- The state a returning call of `PutChar` on the output stream leaves. -/
def afterWrite (c : SciConfig) (b : Nat) (s : SciState) : SciState :=
  if b = 10 then afterPut c 10 (afterPut c 13 s) else afterPut c b s

/-- The state a returning call of `GetChar` on the input stream leaves. -/
def afterRead (s : SciState) : SciState :=
  { s with RxBuffer := (s.RxBuffer.Deq 0).2.2 }

/-- The state a call of `Init` with a non-zero `baud` delivers. -/
def afterInit (c : SciConfig) (baud : Nat) (s : SciState) : SciState :=
  { s with
    BAUD_HIGH := (((c.F_CPU / 16 / baud + (2 ^ 32 - 1)) % 2 ^ 32 % 2 ^ 16) >>> 8) % 256
    BAUD_LOW := ((c.F_CPU / 16 / baud + (2 ^ 32 - 1)) % 2 ^ 32 % 2 ^ 16) % 256
    CTRLB := ((1 <<< c.RXCIE) ||| (1 <<< c.RXEN) ||| (1 <<< c.TXEN)) % 256
    CTRLC := (c.CTRLC_ENABLE ||| (1 <<< c.UCSZ1) ||| (1 <<< c.UCSZ0)) % 256
    stdout := some .mystdout
    stdin := some .mystdin
    mystdout :=
      { put := some .PutChar, get := none, flags := some .FDEV_SETUP_WRITE,
        udata := some .TxBuffer }
    mystdin :=
      { put := none, get := some .GetChar, flags := some .FDEV_SETUP_READ,
        udata := some .RxBuffer } }

/-- Both buffers are well-formed rings and both streams carry their buffer. -/
def Inv (s : SciState) : Prop :=
  s.TxBuffer.WF ∧ s.RxBuffer.WF ∧ Bound s

/-! ## Runs of writes and of transmit-ready interrupts -/

/-- The bytes a sequence of written bytes stands for on the line: every
line-feed is preceded by a carriage-return. -/
def crExpand (bs : List Nat) : List Nat :=
  bs.flatMap (fun b => if b = 10 then [13, 10] else [b])

/-- A run of calls of `PutChar` on the output stream, one per byte, with no
interrupt in between. -/
def writeAll (c : SciConfig) (fuel : Nat) : List Nat → SciState → Except Fault SciState
  | [], s => .ok s
  | b :: bs, s =>
    match PutChar c fuel b .mystdout s with
    | .error e => .error e
    | .ok s1 => writeAll c fuel bs s1

/-- A run of `n` transmit-ready interrupts.  For every firing, in order: the
content of the data register once the handler has run, and whether the
transmit-ready interrupt enable bit is set then; and the state after the last
firing. -/
def fireTx (c : SciConfig) : Nat → SciState → List (Nat × Bool) × SciState
  | 0, s => ([], s)
  | n + 1, s =>
    (((ISR_TX c s).DATAR, (ISR_TX c s).CTRLB.testBit c.UDRIE) :: (fireTx c n (ISR_TX c s)).1,
      (fireTx c n (ISR_TX c s)).2)

/-- The event is not a write. -/
def Event.notWrite : Event → Bool
  | .write _ => false
  | _ => true

/-! ## Properties of the queue -/

namespace Queue

theorem contents_length (q : IOBuffer) : q.contents.length = q.count := by
  simp [contents]

theorem empty_wf : (Queue.empty 8).WF := by decide

theorem Enq_full (q : IOBuffer) (v : Nat) (h : q.count = 8) : q.Enq v = (1, q) := by
  simp [Enq, h]

theorem Enq_fst (q : IOBuffer) (v : Nat) (h : q.count ≠ 8) : (q.Enq v).1 = 0 := by
  simp [Enq, h]

theorem Enq_count (q : IOBuffer) (v : Nat) (h : q.count ≠ 8) :
    (q.Enq v).2.count = q.count + 1 := by
  simp [Enq, h]

theorem Enq_wf (q : IOBuffer) (v : Nat) (hq : q.WF) : (q.Enq v).2.WF := by
  obtain ⟨hl, hh, hc, ht⟩ := hq
  by_cases h : q.count = 8
  · simp [Enq, h, WF, hl, hh, ht]
  · simp only [Enq, h, if_false, WF, List.length_set]
    refine ⟨hl, hh, by omega, by omega⟩

theorem Enq_contents (q : IOBuffer) (v : Nat) (hq : q.WF) (h : q.count ≠ 8) :
    (q.Enq v).2.contents = q.contents ++ [v] := by
  obtain ⟨hl, hh, hc, ht⟩ := hq
  simp only [Enq, h, if_false, contents, List.range_succ, List.map_append, List.map_cons,
    List.map_nil]
  congr 1
  · apply List.map_congr_left
    intro i hi
    have hi' : i < q.count := List.mem_range.mp hi
    have hne : q.tail ≠ (q.head + i) % 8 := by omega
    simp [List.getD_eq_getElem?_getD, List.getElem?_set, hne]
  · have hlt : q.tail < q.data.length := by omega
    simp [List.getD_eq_getElem?_getD, List.getElem?_set, ← ht, hlt]

theorem Deq_empty (q : IOBuffer) (t : Nat) (h : q.count = 0) : q.Deq t = (1, t, q) := by
  simp [Deq, h]

theorem Deq_fst (q : IOBuffer) (t : Nat) (h : q.count ≠ 0) : (q.Deq t).1 = 0 := by
  simp [Deq, h]

theorem Deq_count (q : IOBuffer) (t : Nat) : (q.Deq t).2.2.count = q.count - 1 := by
  by_cases h : q.count = 0 <;> simp [Deq, h]

theorem Deq_wf (q : IOBuffer) (t : Nat) (hq : q.WF) : (q.Deq t).2.2.WF := by
  obtain ⟨hl, hh, hc, ht⟩ := hq
  by_cases h : q.count = 0
  · simp [Deq, h, WF, hl, hh, ht]
  · simp only [Deq, h, if_false, WF]
    refine ⟨hl, by omega, by omega, by omega⟩

theorem Deq_contents (q : IOBuffer) (t : Nat) (hq : q.WF) (h : q.count ≠ 0) :
    q.contents = (q.Deq t).2.1 :: (q.Deq t).2.2.contents := by
  obtain ⟨hl, hh, hc, ht⟩ := hq
  have hD : q.Deq t = (0, q.data.getD q.head 0,
      { data := q.data, head := (q.head + 1) % 8, tail := q.tail, count := q.count - 1 }) := by
    simp [Deq, h]
  obtain ⟨n, hn⟩ : ∃ n, q.count = n + 1 := ⟨q.count - 1, by omega⟩
  rw [hD]
  simp only [contents, hn, List.range_succ_eq_map, List.map_cons,
    List.map_map, Nat.add_sub_cancel]
  congr 1
  · simp [Nat.mod_eq_of_lt hh]
  · apply List.map_congr_left
    intro i _
    simp only [Function.comp]
    congr 1
    omega

end Queue

/-! ## Properties of the transport: writing -/

theorem enqLoop_room (fuel : Nat) (q : IOBuffer) (v : Nat) (h : q.count ≠ 8) :
    enqLoop (fuel + 1) q v = some (q.Enq v).2 := by
  simp [enqLoop, Queue.Enq, h]

theorem enqLoop_full (fuel : Nat) (q : IOBuffer) (v : Nat) (h : q.count = 8) :
    enqLoop fuel q v = none := by
  induction fuel with
  | zero => rfl
  | succ n ih => simpa [enqLoop, Queue.Enq, h] using ih

theorem PutChar_plain (c : SciConfig) (fuel input : Nat) (s : SciState)
    (hne : input ≠ 10) (hb : s.mystdout.udata = some .TxBuffer)
    (hroom : s.TxBuffer.count ≠ 8) :
    PutChar c (fuel + 2) input .mystdout s = .ok (afterPut c input s) := by
  simp [PutChar, hne, SciState.file, hb, SciState.buf, enqLoop_room, hroom,
    SciState.setBuf, afterPut]

theorem PutChar_newline (c : SciConfig) (fuel : Nat) (s : SciState)
    (hb : s.mystdout.udata = some .TxBuffer) (hroom : s.TxBuffer.count + 2 ≤ 8) :
    PutChar c (fuel + 3) 10 .mystdout s = .ok (afterPut c 10 (afterPut c 13 s)) := by
  have h1 : s.TxBuffer.count ≠ 8 := by omega
  have h13 : PutChar c (fuel + 2) 13 .mystdout s = .ok (afterPut c 13 s) :=
    PutChar_plain c fuel 13 s (by decide) hb h1
  have h2 : (afterPut c 13 s).TxBuffer.count ≠ 8 := by
    simp only [afterPut]
    rw [Queue.Enq_count _ _ h1]
    omega
  have hb2 : (afterPut c 13 s).mystdout.udata = some .TxBuffer := by
    simpa [afterPut] using hb
  rw [PutChar]
  simp only [if_true, h13]
  simp only [SciState.file, hb2, SciState.buf, enqLoop_room _ _ _ h2, SciState.setBuf]
  rfl

theorem afterPut_contents (c : SciConfig) (input : Nat) (s : SciState)
    (hwf : s.TxBuffer.WF) (hroom : s.TxBuffer.count ≠ 8) :
    (afterPut c input s).TxBuffer.contents = s.TxBuffer.contents ++ [input] :=
  Queue.Enq_contents s.TxBuffer input hwf hroom

theorem afterPut_wf (c : SciConfig) (input : Nat) (s : SciState) (hwf : s.TxBuffer.WF) :
    (afterPut c input s).TxBuffer.WF :=
  Queue.Enq_wf s.TxBuffer input hwf

theorem afterPut_count (c : SciConfig) (input : Nat) (s : SciState)
    (hroom : s.TxBuffer.count ≠ 8) :
    (afterPut c input s).TxBuffer.count = s.TxBuffer.count + 1 :=
  Queue.Enq_count s.TxBuffer input hroom

theorem PutChar_room (c : SciConfig) (fuel b : Nat) (s : SciState)
    (hb : s.mystdout.udata = some .TxBuffer)
    (hroom : s.TxBuffer.count + (if b = 10 then 2 else 1) ≤ 8) :
    PutChar c (fuel + 3) b .mystdout s = .ok (afterWrite c b s) := by
  by_cases h : b = 10
  · subst h
    simpa [afterWrite] using PutChar_newline c fuel s hb (by simpa using hroom)
  · have hr : s.TxBuffer.count ≠ 8 := by
      simp only [h, if_false] at hroom
      omega
    simpa [afterWrite, h] using PutChar_plain c (fuel + 1) b s h hb hr

theorem afterWrite_contents (c : SciConfig) (b : Nat) (s : SciState) (hwf : s.TxBuffer.WF)
    (hroom : s.TxBuffer.count + (if b = 10 then 2 else 1) ≤ 8) :
    (afterWrite c b s).TxBuffer.contents =
      s.TxBuffer.contents ++ (if b = 10 then [13, 10] else [b]) := by
  by_cases h : b = 10
  · subst h
    have h1 : s.TxBuffer.count ≠ 8 := by simp at hroom; omega
    have h2 : (afterPut c 13 s).TxBuffer.count ≠ 8 := by
      rw [afterPut_count c 13 s h1]; simp at hroom; omega
    simp only [afterWrite, if_true]
    rw [afterPut_contents c 10 _ (afterPut_wf c 13 s hwf) h2, afterPut_contents c 13 s hwf h1]
    simp
  · have h1 : s.TxBuffer.count ≠ 8 := by simp [h] at hroom; omega
    simp only [afterWrite, h, if_false]
    exact afterPut_contents c b s hwf h1

theorem afterWrite_wf (c : SciConfig) (b : Nat) (s : SciState) (hwf : s.TxBuffer.WF) :
    (afterWrite c b s).TxBuffer.WF := by
  unfold afterWrite
  split
  · exact afterPut_wf c 10 _ (afterPut_wf c 13 s hwf)
  · exact afterPut_wf c b s hwf

theorem afterWrite_frame (c : SciConfig) (b : Nat) (s : SciState) :
    (afterWrite c b s).RxBuffer = s.RxBuffer ∧ (afterWrite c b s).mystdout = s.mystdout ∧
      (afterWrite c b s).mystdin = s.mystdin ∧ (afterWrite c b s).DATAR = s.DATAR := by
  unfold afterWrite
  split <;> simp [afterPut]

theorem contents_nil_of_count (q : IOBuffer) (h : q.count = 0) : q.contents = [] := by
  simp [Queue.contents, h]

/-- C1: line-feed normalisation on output.  For every byte `b` and every
transport state whose transmit buffer is a well-formed ring with room for the
bytes to be written (two for a line-feed, one otherwise), a call of `PutChar`
on the output stream with no interrupt in between returns, and the transmit
buffer then holds its earlier contents followed by exactly `[b]` when `b` is
not a line-feed and by exactly `['\r', '\n']` when it is.  In particular,
writing `'A'` and then `'\n'` to an empty buffer leaves `'A', '\r', '\n'`. -/
theorem PutChar_line_feed_normalisation (c : SciConfig) (fuel b : Nat) (s : SciState)
    (hfuel : 3 ≤ fuel) (hwf : s.TxBuffer.WF) (hbound : s.mystdout.udata = some .TxBuffer)
    (hroom : s.TxBuffer.count + (if b = 10 then 2 else 1) ≤ 8) :
    (∃ s', PutChar c fuel b .mystdout s = .ok s' ∧
      s'.TxBuffer.contents = s.TxBuffer.contents ++ (if b = 10 then [13, 10] else [b])) ∧
    (s.TxBuffer.count = 0 →
      ∃ s1 s2, PutChar c fuel 65 .mystdout s = .ok s1 ∧
        PutChar c fuel 10 .mystdout s1 = .ok s2 ∧ s2.TxBuffer.contents = [65, 13, 10]) := by
  obtain ⟨k, rfl⟩ : ∃ k, fuel = k + 3 := ⟨fuel - 3, by omega⟩
  refine ⟨⟨_, PutChar_room c k b s hbound hroom, afterWrite_contents c b s hwf hroom⟩, ?_⟩
  intro h0
  have hA : s.TxBuffer.count + (if (65 : Nat) = 10 then 2 else 1) ≤ 8 := by simp [h0]
  have hcA : (afterWrite c 65 s).TxBuffer.count = 1 := by
    have := afterPut_count c 65 s (by omega)
    simpa [afterWrite, h0] using this
  have hN : (afterWrite c 65 s).TxBuffer.count + (if (10 : Nat) = 10 then 2 else 1) ≤ 8 := by
    simp [hcA]
  refine ⟨_, _, PutChar_room c k 65 s hbound hA,
    PutChar_room c k 10 _ (by rw [(afterWrite_frame c 65 s).2.1]; exact hbound) hN, ?_⟩
  rw [afterWrite_contents c 10 _ (afterWrite_wf c 65 s hwf) hN,
    afterWrite_contents c 65 s hwf hA, contents_nil_of_count _ h0]
  simp

/-- Witness for C1: a line-feed written right after `Init` on the ATmega328P. -/
theorem PutChar_line_feed_normalisation_witness :
    (∃ s', PutChar atmega328p 3 10 .mystdout readyState = .ok s' ∧
      s'.TxBuffer.contents =
        readyState.TxBuffer.contents ++
          (if (10 : Nat) = 10 then [13, 10] else [10])) ∧
    (readyState.TxBuffer.count = 0 →
      ∃ s1 s2, PutChar atmega328p 3 65 .mystdout readyState = .ok s1 ∧
        PutChar atmega328p 3 10 .mystdout s1 = .ok s2 ∧ s2.TxBuffer.contents = [65, 13, 10]) :=
  PutChar_line_feed_normalisation atmega328p 3 10 readyState
    (by decide) (by decide) (by decide) (by decide)

/-! ## Properties of the transport: the transmit-ready handler -/

theorem testBit_65535 (i : Nat) : Nat.testBit 65535 i = decide (i < 16) := by
  have h : (65535 : Nat) = 2 ^ 16 - 1 := by norm_num
  rw [h, Nat.testBit_two_pow_sub_one]

theorem testBit_mod_256 (x i : Nat) :
    (x % 256).testBit i = (decide (i < 8) && x.testBit i) := by
  have h : (256 : Nat) = 2 ^ 8 := by norm_num
  rw [h, Nat.testBit_mod_two_pow]

theorem testBit_set_bit (x u : Nat) (hu : u < 8) :
    ((x ||| (1 <<< u)) % 256).testBit u = true := by
  simp [testBit_mod_256, hu, Nat.one_shiftLeft, Nat.testBit_two_pow]

theorem testBit_clear_bit (x u : Nat) :
    ((x &&& (65535 ^^^ (1 <<< u))) % 256).testBit u = false := by
  by_cases h : u < 8
  · have h16 : u < 16 := by omega
    simp [testBit_mod_256, Nat.one_shiftLeft, Nat.testBit_two_pow, testBit_65535, h16]
  · simp [testBit_mod_256, h]

theorem testBit_clear_bit_other (x u i : Nat) (hi : i < 8) (hne : i ≠ u) :
    ((x &&& (65535 ^^^ (1 <<< u))) % 256).testBit i = x.testBit i := by
  have h16 : i < 16 := by omega
  simp [testBit_mod_256, Nat.one_shiftLeft, Nat.testBit_two_pow, testBit_65535, hi, h16,
    Ne.symm hne]

theorem ISR_TX_empty (c : SciConfig) (s : SciState) (h : s.TxBuffer.count = 0) :
    ISR_TX c s = { s with CTRLB := (s.CTRLB &&& (65535 ^^^ (1 <<< c.UDRIE))) % 256 } := by
  simp [ISR_TX, Queue.Deq, h]

theorem ISR_TX_data (c : SciConfig) (s : SciState) (h : s.TxBuffer.count ≠ 0) :
    ISR_TX c s =
      { s with TxBuffer := (s.TxBuffer.Deq 0).2.2, DATAR := (s.TxBuffer.Deq 0).2.1 } := by
  simp [ISR_TX, Queue.Deq, h]

theorem afterPut_udrie (c : SciConfig) (input : Nat) (s : SciState) (hu : c.UDRIE < 8) :
    (afterPut c input s).CTRLB.testBit c.UDRIE = true :=
  testBit_set_bit s.CTRLB c.UDRIE hu

theorem afterWrite_udrie (c : SciConfig) (b : Nat) (s : SciState) (hu : c.UDRIE < 8) :
    (afterWrite c b s).CTRLB.testBit c.UDRIE = true := by
  unfold afterWrite
  split
  · exact afterPut_udrie c 10 _ hu
  · exact afterPut_udrie c b s hu

/-- C2, as stated, fails: on the ATmega328P right after `Init` (transmit
buffer empty, transmit-ready interrupt disabled), `PutChar('X')` followed by
one transmit-ready interrupt leaves the buffer empty and `'X'` in the data
register, but the transmit-ready interrupt enable bit is still set. -/
theorem single_interrupt_keeps_udrie :
    readyState.TxBuffer.Size = 0 ∧
    readyState.CTRLB.testBit atmega328p.UDRIE = false ∧
    ∃ s1, PutChar atmega328p 3 88 .mystdout readyState = .ok s1 ∧
      (ISR_TX atmega328p s1).TxBuffer.Size = 0 ∧
      (ISR_TX atmega328p s1).DATAR = 88 ∧
      ¬ ((ISR_TX atmega328p s1).CTRLB.testBit atmega328p.UDRIE = false) := by
  refine ⟨by decide, by decide,
    afterWrite atmega328p 88 readyState, rfl, by decide,
    by decide, by decide⟩

/-- C2, amended: starting with the transmit buffer empty, `PutChar('X')` on
the output stream returns with `'X'` enqueued and the transmit-ready interrupt
enabled; one transmit-ready interrupt then dequeues `'X'`, writes it to the
data register and leaves the buffer empty with the interrupt still enabled; a
second transmit-ready interrupt finds the buffer empty and disables the
interrupt, the data register still holding `'X'`.  This holds whatever the
enable bit was before the write, in particular when it was clear. -/
theorem transmit_scenario (c : SciConfig) (fuel : Nat) (s : SciState)
    (hfuel : 3 ≤ fuel) (hu : c.UDRIE < 8) (hwf : s.TxBuffer.WF)
    (hbound : s.mystdout.udata = some .TxBuffer) (hempty : s.TxBuffer.Size = 0) :
    ∃ s1, PutChar c fuel 88 .mystdout s = .ok s1 ∧
      s1.TxBuffer.contents = [88] ∧
      s1.CTRLB.testBit c.UDRIE = true ∧
      (ISR_TX c s1).TxBuffer.Size = 0 ∧
      (ISR_TX c s1).DATAR = 88 ∧
      (ISR_TX c s1).CTRLB.testBit c.UDRIE = true ∧
      (ISR_TX c (ISR_TX c s1)).TxBuffer.Size = 0 ∧
      (ISR_TX c (ISR_TX c s1)).DATAR = 88 ∧
      (ISR_TX c (ISR_TX c s1)).CTRLB.testBit c.UDRIE = false := by
  obtain ⟨k, rfl⟩ : ∃ k, fuel = k + 3 := ⟨fuel - 3, by omega⟩
  have h0 : s.TxBuffer.count = 0 := hempty
  have hroom : s.TxBuffer.count + (if (88 : Nat) = 10 then 2 else 1) ≤ 8 := by simp [h0]
  have hcont : (afterWrite c 88 s).TxBuffer.contents = [88] := by
    rw [afterWrite_contents c 88 s hwf hroom, contents_nil_of_count _ h0]
    simp
  have hwf1 := afterWrite_wf c 88 s hwf
  have hc1 : (afterWrite c 88 s).TxBuffer.count ≠ 0 := by
    rw [← Queue.contents_length, hcont]
    simp
  have hD := Queue.Deq_contents (afterWrite c 88 s).TxBuffer 0 hwf1 hc1
  rw [hcont] at hD
  have hx : ((afterWrite c 88 s).TxBuffer.Deq 0).2.1 = 88 := by
    have := List.head_eq_of_cons_eq hD
    exact this.symm
  have hrest : ((afterWrite c 88 s).TxBuffer.Deq 0).2.2.contents = [] := by
    have := List.tail_eq_of_cons_eq hD
    exact this.symm
  have hcount2 : (ISR_TX c (afterWrite c 88 s)).TxBuffer.count = 0 := by
    rw [ISR_TX_data c _ hc1]
    have := Queue.contents_length ((afterWrite c 88 s).TxBuffer.Deq 0).2.2
    rw [hrest] at this
    exact this.symm
  have h2 := ISR_TX_data c (afterWrite c 88 s) hc1
  have h3 := ISR_TX_empty c (ISR_TX c (afterWrite c 88 s)) hcount2
  refine ⟨_, PutChar_room c k 88 s hbound hroom, hcont, afterWrite_udrie c 88 s hu,
    hcount2, ?_, ?_, ?_, ?_, ?_⟩
  · rw [h2]; exact hx
  · rw [h2]; exact afterWrite_udrie c 88 s hu
  · rw [h3]; exact hcount2
  · rw [h3]; show (ISR_TX c (afterWrite c 88 s)).DATAR = 88
    rw [h2]; exact hx
  · rw [h3]; exact testBit_clear_bit _ _

/-- Witness for the amended C2 on the ATmega328P right after `Init`. -/
theorem transmit_scenario_witness :
    ∃ s1, PutChar atmega328p 3 88 .mystdout readyState = .ok s1 ∧
      s1.TxBuffer.contents = [88] ∧
      s1.CTRLB.testBit atmega328p.UDRIE = true ∧
      (ISR_TX atmega328p s1).TxBuffer.Size = 0 ∧
      (ISR_TX atmega328p s1).DATAR = 88 ∧
      (ISR_TX atmega328p s1).CTRLB.testBit atmega328p.UDRIE = true ∧
      (ISR_TX atmega328p (ISR_TX atmega328p s1)).TxBuffer.Size = 0 ∧
      (ISR_TX atmega328p (ISR_TX atmega328p s1)).DATAR = 88 ∧
      (ISR_TX atmega328p (ISR_TX atmega328p s1)).CTRLB.testBit atmega328p.UDRIE = false :=
  transmit_scenario atmega328p 3 readyState
    (by decide) (by decide) (by decide) (by decide) (by decide)

/-- C4: contract of the transmit-ready handler, for every transport state.
With the transmit buffer empty the handler clears the transmit-ready interrupt
enable bit of control register B and leaves every other bit of that 8-bit
register, the data register and both buffers as they were.  With the transmit
buffer a non-empty well-formed ring the handler removes exactly the oldest
byte and writes it to the data register, leaving control register B and the
receive buffer as they were. -/
theorem ISR_TX_contract (c : SciConfig) (s : SciState) :
    (s.TxBuffer.count = 0 →
      (ISR_TX c s).CTRLB.testBit c.UDRIE = false ∧
      (∀ i, i < 8 → i ≠ c.UDRIE → (ISR_TX c s).CTRLB.testBit i = s.CTRLB.testBit i) ∧
      (ISR_TX c s).DATAR = s.DATAR ∧
      (ISR_TX c s).TxBuffer = s.TxBuffer ∧
      (ISR_TX c s).RxBuffer = s.RxBuffer) ∧
    (s.TxBuffer.count ≠ 0 → s.TxBuffer.WF →
      s.TxBuffer.contents = (ISR_TX c s).DATAR :: (ISR_TX c s).TxBuffer.contents ∧
      (ISR_TX c s).TxBuffer.Size + 1 = s.TxBuffer.Size ∧
      (ISR_TX c s).TxBuffer.WF ∧
      (ISR_TX c s).CTRLB = s.CTRLB ∧
      (ISR_TX c s).RxBuffer = s.RxBuffer) := by
  constructor
  · intro h
    rw [ISR_TX_empty c s h]
    exact ⟨testBit_clear_bit _ _, fun i hi hne => testBit_clear_bit_other _ _ i hi hne,
      rfl, rfl, rfl⟩
  · intro h hwf
    rw [ISR_TX_data c s h]
    refine ⟨Queue.Deq_contents s.TxBuffer 0 hwf h, ?_, Queue.Deq_wf s.TxBuffer 0 hwf, rfl, rfl⟩
    show (s.TxBuffer.Deq 0).2.2.count + 1 = s.TxBuffer.count
    rw [Queue.Deq_count]
    omega

/-- Witness for C4: the handler on the state right after `Init` (transmit
buffer empty) and on the state after one `PutChar` (transmit buffer holding
one byte). -/
theorem ISR_TX_contract_witness :
    ((ISR_TX atmega328p readyState).CTRLB.testBit atmega328p.UDRIE
        = false ∧
      (ISR_TX atmega328p readyState).TxBuffer
        = readyState.TxBuffer) ∧
    ((afterWrite atmega328p 88 readyState).TxBuffer.contents =
      (ISR_TX atmega328p (afterWrite atmega328p 88 readyState)).DATAR ::
        (ISR_TX atmega328p
          (afterWrite atmega328p 88 readyState)).TxBuffer.contents) :=
  ⟨⟨((ISR_TX_contract atmega328p readyState).1 (by decide)).1,
    ((ISR_TX_contract atmega328p readyState).1 (by decide)).2.2.2.1⟩,
   ((ISR_TX_contract atmega328p (afterWrite atmega328p 88 readyState)).2
      (by decide) (by decide)).1⟩

/-! ## Properties of the transport: receiving and reading -/

theorem receive_full (b : Nat) (s : SciState) (h : s.RxBuffer.count = 8) :
    (receive b s).RxBuffer = s.RxBuffer := by
  simp [receive, ISR_RX, Queue.Enq, h]

theorem receive_rx (b : Nat) (s : SciState) :
    (receive b s).RxBuffer = (s.RxBuffer.Enq b).2 := rfl

theorem receive_frame (b : Nat) (s : SciState) :
    (receive b s).TxBuffer = s.TxBuffer ∧ (receive b s).mystdout = s.mystdout ∧
      (receive b s).mystdin = s.mystdin := ⟨rfl, rfl, rfl⟩

theorem receiveAll_append (bs extra : List Nat) (s : SciState) :
    receiveAll (bs ++ extra) s = receiveAll extra (receiveAll bs s) := by
  induction bs generalizing s with
  | nil => rfl
  | cons b bs ih => simpa [receiveAll] using ih (receive b s)

theorem receiveAll_full (bs : List Nat) (s : SciState) (h : s.RxBuffer.count = 8) :
    (receiveAll bs s).RxBuffer = s.RxBuffer := by
  induction bs generalizing s with
  | nil => rfl
  | cons b bs ih =>
    have h1 := receive_full b s h
    simp only [receiveAll]
    rw [ih (receive b s) (by rw [h1]; exact h), h1]

theorem receiveAll_contents (bs : List Nat) (s : SciState) (hwf : s.RxBuffer.WF) :
    (receiveAll bs s).RxBuffer.WF ∧
      (receiveAll bs s).RxBuffer.contents = (s.RxBuffer.contents ++ bs).take 8 ∧
      (receiveAll bs s).mystdin = s.mystdin := by
  induction bs generalizing s with
  | nil =>
    refine ⟨hwf, ?_, rfl⟩
    have hl := Queue.contents_length s.RxBuffer
    have hc : s.RxBuffer.count ≤ 8 := hwf.2.2.1
    simp only [receiveAll, List.append_nil]
    rw [List.take_of_length_le (by omega)]
  | cons b bs ih =>
    have hwf1 : (receive b s).RxBuffer.WF := Queue.Enq_wf s.RxBuffer b hwf
    obtain ⟨h1, h2, h3⟩ := ih (receive b s) hwf1
    refine ⟨h1, ?_, h3⟩
    simp only [receiveAll]
    rw [h2]
    by_cases hfull : s.RxBuffer.count = 8
    · rw [receive_full b s hfull]
      have hl := Queue.contents_length s.RxBuffer
      rw [List.take_append_of_le_length (by omega), List.take_append_of_le_length (by omega)]
    · rw [receive_rx, Queue.Enq_contents s.RxBuffer b hwf hfull]
      simp

theorem deqLoop_data (fuel : Nat) (q : IOBuffer) (t : Nat) (h : q.count ≠ 0) :
    deqLoop (fuel + 1) q t = some ((q.Deq t).2.1, (q.Deq t).2.2) := by
  simp [deqLoop, Queue.Deq, h]

theorem deqLoop_empty (fuel : Nat) (q : IOBuffer) (t : Nat) (h : q.count = 0) :
    deqLoop fuel q t = none := by
  induction fuel with
  | zero => rfl
  | succ n ih => simpa [deqLoop, Queue.Deq, h] using ih

theorem GetChar_data (c : SciConfig) (fuel : Nat) (s : SciState)
    (hb : s.mystdin.udata = some .RxBuffer) (h : s.RxBuffer.count ≠ 0) :
    GetChar c (fuel + 1) .mystdin s =
      .ok (charToInt c.charSigned (s.RxBuffer.Deq 0).2.1, afterRead s) := by
  simp only [GetChar, SciState.file, hb, SciState.buf, deqLoop_data fuel _ _ h,
    SciState.setBuf, afterRead]

theorem readN_contents (c : SciConfig) (fuel : Nat) (n : Nat) (s : SciState)
    (hwf : s.RxBuffer.WF) (hb : s.mystdin.udata = some .RxBuffer)
    (hn : n ≤ s.RxBuffer.count) :
    ∃ s', readN c (fuel + 1) n s
        = .ok ((s.RxBuffer.contents.take n).map (charToInt c.charSigned), s') ∧
      s'.RxBuffer.contents = s.RxBuffer.contents.drop n ∧
      s'.RxBuffer.count = s.RxBuffer.count - n ∧
      s'.mystdin = s.mystdin := by
  induction n generalizing s with
  | zero => exact ⟨s, by simp [readN], by simp, by simp, rfl⟩
  | succ n ih =>
    have hc : s.RxBuffer.count ≠ 0 := by omega
    have hD := Queue.Deq_contents s.RxBuffer 0 hwf hc
    have hwf1 : (afterRead s).RxBuffer.WF := Queue.Deq_wf s.RxBuffer 0 hwf
    have hcount1 : (afterRead s).RxBuffer.count = s.RxBuffer.count - 1 :=
      Queue.Deq_count s.RxBuffer 0
    obtain ⟨s', h1, h2, h3, h4⟩ := ih (afterRead s) hwf1 hb (by omega)
    refine ⟨s', ?_, ?_, ?_, ?_⟩
    · simp only [readN, GetChar_data c fuel s hb hc, h1]
      rw [hD]
      rfl
    · rw [h2, hD]
      rfl
    · rw [h3, hcount1]
      omega
    · rw [h4]
      rfl

/-- What the receive path does for any sequence of bytes delivered by
consecutive receive interrupts to an empty receive buffer: `Size` of the input
stream is the smaller of the number of bytes and 8; once 8 bytes are in,
further deliveries leave the buffer as it is; and that many calls of `GetChar`
return, giving the first bytes delivered, in their order, each converted from
`char` to `int`, after which `Size` is 0. -/
theorem receive_overflow_fifo (c : SciConfig) (fuel : Nat) (bs : List Nat) (s : SciState)
    (hfuel : 1 ≤ fuel) (hwf : s.RxBuffer.WF) (hbound : s.mystdin.udata = some .RxBuffer)
    (hempty : s.RxBuffer.Size = 0) :
    Size .mystdin (receiveAll bs s) = .ok (min bs.length 8) ∧
    (receiveAll bs s).RxBuffer.contents = bs.take 8 ∧
    (8 ≤ bs.length → ∀ extra,
      (receiveAll (bs ++ extra) s).RxBuffer = (receiveAll bs s).RxBuffer) ∧
    (∃ s', readN c fuel (min bs.length 8) (receiveAll bs s)
        = .ok ((bs.take 8).map (charToInt c.charSigned), s') ∧
      Size .mystdin s' = .ok 0) := by
  obtain ⟨k, rfl⟩ : ∃ k, fuel = k + 1 := ⟨fuel - 1, by omega⟩
  have h0 : s.RxBuffer.count = 0 := hempty
  have hnil : s.RxBuffer.contents = [] := contents_nil_of_count _ h0
  obtain ⟨w1, w2, w3⟩ := receiveAll_contents bs s hwf
  rw [hnil, List.nil_append] at w2
  have h3 : (receiveAll bs s).mystdin.udata = some .RxBuffer := by rw [w3]; exact hbound
  have h4 : (receiveAll bs s).RxBuffer.count = min bs.length 8 := by
    rw [← Queue.contents_length, w2, List.length_take]
    exact Nat.min_comm _ _
  refine ⟨?_, w2, ?_, ?_⟩
  · simp only [Size, SciState.file, h3, SciState.buf, Queue.Size, h4]
  · intro h8 extra
    rw [receiveAll_append]
    exact receiveAll_full extra _ (by rw [h4]; omega)
  · obtain ⟨s', r1, _, r3, r4⟩ :=
      readN_contents c k (min bs.length 8) (receiveAll bs s) w1 h3 (by omega)
    refine ⟨s', ?_, ?_⟩
    · rw [r1, w2, List.take_take]
      have hm : min (min bs.length 8) 8 = 8 ∨ min (min bs.length 8) 8 = bs.length := by omega
      rcases hm with hm | hm
      · rw [hm]
      · rw [hm, List.take_length]
        have : bs.length ≤ 8 := by omega
        rw [List.take_of_length_le this]
    · simp only [Size, SciState.file, r4, h3, SciState.buf, Queue.Size, r3, h4]
      simp

/-- C3, at the input where the code departs from it: on an ATmega328P with
plain `char` signed, right after `Init`, one receive interrupt delivers the
byte `0xFF` to the empty receive buffer.  The buffer then holds `[0xFF]` and
`Size` is 1, as the claim says; but `GetChar` returns `-1`, not `0xFF`: the
byte is copied into a `char` and widened to `int` with its sign.  `Size` is 0
afterwards. -/
theorem GetChar_returns_high_byte_negative :
    (receive 0xFF readyState).RxBuffer.contents = [0xFF] ∧
    Size .mystdin (receive 0xFF readyState) = .ok 1 ∧
    (∃ s', GetChar atmega328p 1 .mystdin (receive 0xFF readyState) = .ok (-1, s') ∧
      Size .mystdin s' = .ok 0) ∧
    ¬ ∃ s', GetChar atmega328p 1 .mystdin (receive 0xFF readyState) = .ok (0xFF, s') := by
  have hG := GetChar_data atmega328p 0 (receive 0xFF readyState) (by decide) (by decide)
  have hv : charToInt atmega328p.charSigned ((receive 0xFF readyState).RxBuffer.Deq 0).2.1
      = -1 := by decide
  rw [hv] at hG
  refine ⟨by decide, rfl, ⟨_, hG, rfl⟩, ?_⟩
  rintro ⟨s', h⟩
  rw [hG] at h
  simp only [Except.ok.injEq, Prod.mk.injEq] at h
  exact absurd h.1 (by decide)

/-! ## The occupancy invariant -/

theorem applyEvent_inv (c : SciConfig) (k : Nat) (s : SciState) (e : Event)
    (hinv : Inv s) (hready : e.ready s = true) :
    ∃ s', applyEvent c (k + 3) s e = .ok s' ∧ Inv s' := by
  obtain ⟨hT, hR, hbo, hbi⟩ := hinv
  cases e with
  | rx b =>
    exact ⟨_, rfl, hT, Queue.Enq_wf s.RxBuffer b hR, hbo, hbi⟩
  | tx =>
    refine ⟨_, rfl, ?_⟩
    by_cases h : s.TxBuffer.count = 0
    · rw [ISR_TX_empty c s h]
      exact ⟨hT, hR, hbo, hbi⟩
    · rw [ISR_TX_data c s h]
      exact ⟨Queue.Deq_wf s.TxBuffer 0 hT, hR, hbo, hbi⟩
  | write b =>
    have hroom : s.TxBuffer.count + (if b = 10 then 2 else 1) ≤ 8 := by
      simpa [Event.ready] using hready
    obtain ⟨f1, f2, f3, _⟩ := afterWrite_frame c b s
    refine ⟨_, PutChar_room c k b s hbo hroom, afterWrite_wf c b s hT, ?_, ?_, ?_⟩
    · rw [f1]; exact hR
    · rw [f2]; exact hbo
    · rw [f3]; exact hbi
  | read =>
    have hdata : s.RxBuffer.count ≠ 0 := by simpa [Event.ready] using hready
    refine ⟨afterRead s, ?_, hT, Queue.Deq_wf s.RxBuffer 0 hR, hbo, hbi⟩
    simp only [applyEvent, GetChar_data c (k + 2) s hbi hdata]

theorem runEvents_inv (c : SciConfig) (k : Nat) (evs : List Event) (s : SciState)
    (hinv : Inv s) (hadm : admissible c (k + 3) s evs = true) :
    ∃ s', runEvents c (k + 3) s evs = .ok s' ∧ Inv s' := by
  induction evs generalizing s with
  | nil => exact ⟨s, rfl, hinv⟩
  | cons e es ih =>
    simp only [admissible, Bool.and_eq_true] at hadm
    obtain ⟨hready, hrest⟩ := hadm
    obtain ⟨s1, h1, hinv1⟩ := applyEvent_inv c k s e hinv hready
    rw [h1] at hrest
    obtain ⟨s', h2, hinv2⟩ := ih s1 hinv1 hrest
    exact ⟨s', by simp only [runEvents, h1, h2], hinv2⟩

/-- C5: buffer occupancy invariant of the transport.  Starting from two empty
capacity-8 buffers bound to their streams, every finite sequence of receive
interrupts, transmit-ready interrupts, writes that find room and reads that
find data runs to a state in which `Size` of either stream is at most 8 (and
at least 0, being a natural number).  An enqueue attempt on a buffer of size 8
fails and leaves the size at 8; a dequeue attempt on a buffer of size 0 fails
and leaves the size at 0. -/
theorem occupancy_invariant (c : SciConfig) (fuel : Nat) (s : SciState) (evs : List Event)
    (hfuel : 3 ≤ fuel) (hTx : s.TxBuffer = Queue.empty 8) (hRx : s.RxBuffer = Queue.empty 8)
    (hbound : Bound s) (hadm : admissible c fuel s evs = true) :
    (∃ s' nt nr, runEvents c fuel s evs = .ok s' ∧
      Size .mystdout s' = .ok nt ∧ Size .mystdin s' = .ok nr ∧
      0 ≤ nt ∧ nt ≤ 8 ∧ 0 ≤ nr ∧ nr ≤ 8) ∧
    (∀ (q : IOBuffer) (v : Nat), q.Size = 8 → (q.Enq v).1 ≠ 0 ∧ (q.Enq v).2.Size = 8) ∧
    (∀ (q : IOBuffer) (t : Nat), q.Size = 0 → (q.Deq t).1 ≠ 0 ∧ (q.Deq t).2.2.Size = 0) := by
  obtain ⟨k, rfl⟩ : ∃ k, fuel = k + 3 := ⟨fuel - 3, by omega⟩
  have hinv : Inv s := ⟨by rw [hTx]; exact Queue.empty_wf, by rw [hRx]; exact Queue.empty_wf,
    hbound⟩
  obtain ⟨s', hrun, hT, hR, hbo, hbi⟩ := runEvents_inv c k evs s hinv hadm
  refine ⟨⟨s', s'.TxBuffer.count, s'.RxBuffer.count, hrun, ?_, ?_, Nat.zero_le _, hT.2.2.1,
    Nat.zero_le _, hR.2.2.1⟩, ?_, ?_⟩
  · simp only [Size, SciState.file, hbo, SciState.buf, Queue.Size]
  · simp only [Size, SciState.file, hbi, SciState.buf, Queue.Size]
  · intro q v h
    have h8 : q.count = 8 := h
    rw [Queue.Enq_full q v h8]
    exact ⟨Nat.one_ne_zero, h⟩
  · intro q t h
    have h0 : q.count = 0 := h
    rw [Queue.Deq_empty q t h0]
    exact ⟨Nat.one_ne_zero, h⟩

/-- Witness for C5: a run right after `Init` that fills the receive buffer
past its capacity, writes a line, drains and reads. -/
theorem occupancy_invariant_witness :
    ∃ s' nt nr,
      runEvents atmega328p 3 readyState
        [.rx 1, .rx 2, .rx 3, .rx 4, .rx 5, .rx 6, .rx 7, .rx 8, .rx 9,
          .write 65, .write 10, .tx, .read, .tx, .tx, .tx] = .ok s' ∧
      Size .mystdout s' = .ok nt ∧ Size .mystdin s' = .ok nr ∧
      0 ≤ nt ∧ nt ≤ 8 ∧ 0 ≤ nr ∧ nr ≤ 8 :=
  (occupancy_invariant atmega328p 3 readyState
    [.rx 1, .rx 2, .rx 3, .rx 4, .rx 5, .rx 6, .rx 7, .rx 8, .rx 9,
      .write 65, .write 10, .tx, .read, .tx, .tx, .tx]
    (by decide) (by decide) (by decide) (by decide) (by decide)).1

/-! ## Pin access: bit arithmetic on a register byte -/

theorem pinMask_eq (k : Nat) (hk : k < 8) : (1 <<< k) % 256 = 2 ^ k := by
  rw [Nat.one_shiftLeft]
  apply Nat.mod_eq_of_lt
  calc 2 ^ k < 2 ^ 8 := Nat.pow_lt_pow_right (by norm_num) hk
    _ = 256 := by norm_num

theorem testBit_clr (x k i : Nat) :
    ((x &&& (65535 ^^^ 2 ^ k)) % 256).testBit i =
      (decide (i < 8) && (x.testBit i && !decide (k = i))) := by
  rw [testBit_mod_256, Nat.testBit_land, Nat.testBit_xor, testBit_65535, Nat.testBit_two_pow]
  by_cases h : i < 8
  · have : i < 16 := by omega
    simp [h, this]
  · simp [h]

theorem testBit_set (x k i : Nat) :
    ((x ||| 2 ^ k) % 256).testBit i =
      (decide (i < 8) && (x.testBit i || decide (k = i))) := by
  rw [testBit_mod_256, Nat.testBit_lor, Nat.testBit_two_pow]

theorem clr_clr (x k : Nat) :
    ((x &&& (65535 ^^^ 2 ^ k)) % 256 &&& (65535 ^^^ 2 ^ k)) % 256 =
      (x &&& (65535 ^^^ 2 ^ k)) % 256 := by
  apply Nat.eq_of_testBit_eq
  intro i
  rw [testBit_clr, testBit_clr]
  cases decide (i < 8) <;> cases x.testBit i <;> cases decide (k = i) <;> rfl

theorem set_set (x k : Nat) :
    ((x ||| 2 ^ k) % 256 ||| 2 ^ k) % 256 = (x ||| 2 ^ k) % 256 := by
  apply Nat.eq_of_testBit_eq
  intro i
  rw [testBit_set, testBit_set]
  cases decide (i < 8) <;> cases x.testBit i <;> cases decide (k = i) <;> rfl

theorem clr_set (x k : Nat) :
    ((x &&& (65535 ^^^ 2 ^ k)) % 256 ||| 2 ^ k) % 256 = (x ||| 2 ^ k) % 256 := by
  apply Nat.eq_of_testBit_eq
  intro i
  rw [testBit_set, testBit_set, testBit_clr]
  cases decide (i < 8) <;> cases x.testBit i <;> cases decide (k = i) <;> rfl

theorem set_clr (x k : Nat) :
    ((x ||| 2 ^ k) % 256 &&& (65535 ^^^ 2 ^ k)) % 256 = (x &&& (65535 ^^^ 2 ^ k)) % 256 := by
  apply Nat.eq_of_testBit_eq
  intro i
  rw [testBit_clr, testBit_clr, testBit_set]
  cases decide (i < 8) <;> cases x.testBit i <;> cases decide (k = i) <;> rfl

theorem and_mask_ne_zero (v k : Nat) : (v &&& 2 ^ k ≠ 0) ↔ v.testBit k = true := by
  rw [Nat.and_two_pow]
  cases v.testBit k <;> simp

theorem testBit_byte_high (v i : Nat) (hv : v < 256) (hi : ¬ i < 8) : v.testBit i = false := by
  apply Nat.testBit_lt_two_pow
  apply lt_of_lt_of_le hv
  calc 256 = 2 ^ 8 := by norm_num
    _ ≤ 2 ^ i := Nat.pow_le_pow_right (by norm_num) (by omega)

theorem toggle_when_set (v k : Nat) (hv : v < 256) (h : v.testBit k = true) :
    (v &&& (65535 ^^^ 2 ^ k)) % 256 = v ^^^ 2 ^ k := by
  apply Nat.eq_of_testBit_eq
  intro i
  rw [testBit_clr, Nat.testBit_xor, Nat.testBit_two_pow]
  by_cases hi : i < 8
  · by_cases hk : k = i
    · subst hk; simp [hi, h]
    · simp [hi, hk]
  · have hz := testBit_byte_high v i hv hi
    have hk : k ≠ i := by
      rintro rfl
      rw [hz] at h; exact Bool.false_ne_true h
    simp [hi, hz, hk]

theorem toggle_when_clear (v k : Nat) (hv : v < 256) (hk : k < 8) (h : v.testBit k = false) :
    (v ||| 2 ^ k) % 256 = v ^^^ 2 ^ k := by
  apply Nat.eq_of_testBit_eq
  intro i
  rw [testBit_set, Nat.testBit_xor, Nat.testBit_two_pow]
  by_cases hi : i < 8
  · by_cases hki : k = i
    · subst hki; simp [hi, h]
    · simp [hi, hki]
  · have hz := testBit_byte_high v i hv hi
    have hki : k ≠ i := by omega
    simp [hi, hz, hki]

theorem xor_mask_lt (v k : Nat) (hv : v < 256) (hk : k < 8) : v ^^^ 2 ^ k < 256 := by
  have h8 : (256 : Nat) = 2 ^ 8 := by norm_num
  rw [h8] at hv ⊢
  exact Nat.xor_lt_two_pow hv (Nat.pow_lt_pow_right (by norm_num) hk)

/-! ## Pin access: resolving a pin -/

theorem length_flatMap_MAKEPINS (l : List PortName) :
    (l.flatMap MAKEPINS).length = 8 * l.length := by
  induction l with
  | nil => rfl
  | cons x xs ih =>
    simp only [List.flatMap_cons, List.length_append, ih, List.length_cons]
    simp [MAKEPINS]
    omega

theorem NONE_eq (g : GpioConfig) : NONE g = 8 * (PortBanks g).length := by
  rw [NONE, pinEnumerators, length_flatMap_MAKEPINS, PortBanks, List.length_map]

theorem PortBanks_length_le (g : GpioConfig) : (PortBanks g).length ≤ 11 := by
  simp only [PortBanks, List.length_map]
  exact List.length_filter_le _ _

theorem pin_port (g : GpioConfig) (pin : Nat) (h : pin < NONE g) :
    (pin / 8) % 256 = pin / 8 ∧ pin / 8 < (PortBanks g).length := by
  rw [NONE_eq] at h
  have := PortBanks_length_le g
  omega

theorem pin_resolves (g : GpioConfig) (pin : Nat) (h : pin < NONE g) :
    ∃ a, (PortBanks g)[pin / 8]? = some a ∧ (PortBanks g)[(pin / 8) % 256]? = some a := by
  obtain ⟨h1, h2⟩ := pin_port g pin h
  exact ⟨(PortBanks g)[pin / 8], List.getElem?_eq_getElem h2, by
    rw [h1]; exact List.getElem?_eq_getElem h2⟩

theorem High_eq (g : GpioConfig) (pin : Nat) (m : Mem) (a : Int)
    (ha : (PortBanks g)[(pin / 8) % 256]? = some a) :
    High g pin m = some (Function.update m a ((m a ||| 2 ^ (pin % 8)) % 256)) := by
  simp only [High, PORTOF, ha, pinMask_eq (pin % 8) (Nat.mod_lt _ (by norm_num))]

theorem Low_eq (g : GpioConfig) (pin : Nat) (m : Mem) (a : Int)
    (ha : (PortBanks g)[(pin / 8) % 256]? = some a) :
    Low g pin m = some (Function.update m a ((m a &&& (65535 ^^^ 2 ^ (pin % 8))) % 256)) := by
  simp only [Low, PORTOF, ha, pinMask_eq (pin % 8) (Nat.mod_lt _ (by norm_num))]

theorem In_eq (g : GpioConfig) (pin : Nat) (m : Mem) (a : Int)
    (ha : (PortBanks g)[(pin / 8) % 256]? = some a) :
    In g pin m =
      some (Function.update m (a - 1) ((m (a - 1) &&& (65535 ^^^ 2 ^ (pin % 8))) % 256)) := by
  simp only [In, DDROF, ha, Option.map_some', pinMask_eq (pin % 8) (Nat.mod_lt _ (by norm_num))]

theorem Out_eq (g : GpioConfig) (pin : Nat) (m : Mem) (a : Int)
    (ha : (PortBanks g)[(pin / 8) % 256]? = some a) :
    Out g pin m = some (Function.update m (a - 1) ((m (a - 1) ||| 2 ^ (pin % 8)) % 256)) := by
  simp only [Out, DDROF, ha, Option.map_some', pinMask_eq (pin % 8) (Nat.mod_lt _ (by norm_num))]

theorem Get_eq (g : GpioConfig) (pin : Nat) (m : Mem) (a : Int)
    (ha : (PortBanks g)[(pin / 8) % 256]? = some a) :
    Get g pin m = some (if (m (a - 2)).testBit (pin % 8) = true then 1 else 0, m) := by
  simp only [Get, PINOF, ha, Option.map_some', pinMask_eq (pin % 8) (Nat.mod_lt _ (by norm_num)),
    and_mask_ne_zero]

theorem Toggle_eq (g : GpioConfig) (pin : Nat) (m : Mem) (a : Int)
    (ha : (PortBanks g)[(pin / 8) % 256]? = some a) (hv : m a < 256) :
    Toggle g pin m = some (Function.update m a (m a ^^^ 2 ^ (pin % 8))) := by
  have hk : pin % 8 < 8 := Nat.mod_lt _ (by norm_num)
  simp only [Toggle, PORTOF, ha, pinMask_eq (pin % 8) hk, and_mask_ne_zero]
  by_cases hb : (m a).testBit (pin % 8) = true
  · rw [if_pos hb, Low_eq g pin m a ha, toggle_when_set _ _ hv hb]
  · rw [if_neg hb, High_eq g pin m a ha,
      toggle_when_clear _ _ hv hk (by simpa using hb)]

/-! ## Pin access: the claims -/

/-- C6: `Toggle` is an involution.  For every pin below `NONE` and every
register file holding bytes, one `Toggle` flips exactly the bit of the pin in
the output register of its port and changes no other bit of any register, and
a second `Toggle` gives back exactly the register file it started from. -/
theorem Toggle_involution (g : GpioConfig) (pin : Nat) (m : Mem)
    (hpin : pin < NONE g) (hbytes : Mem.Bytes m) :
    ∃ a m1, PORTOF g (pin / 8) = some a ∧ Toggle g pin m = some m1 ∧
      (m1 a).testBit (pin % 8) = !(m a).testBit (pin % 8) ∧
      (∀ i, i ≠ pin % 8 → (m1 a).testBit i = (m a).testBit i) ∧
      (∀ a', a' ≠ a → m1 a' = m a') ∧
      Toggle g pin m1 = some m := by
  obtain ⟨a, ha0, ha⟩ := pin_resolves g pin hpin
  have hk : pin % 8 < 8 := Nat.mod_lt _ (by norm_num)
  refine ⟨a, _, ha0, Toggle_eq g pin m a ha (hbytes a), ?_, ?_, ?_, ?_⟩
  · simp [Function.update_same, Nat.testBit_xor, Nat.testBit_two_pow]
  · intro i hi
    simp [Function.update_same, Nat.testBit_xor, Nat.testBit_two_pow, Ne.symm hi]
  · intro a' ha'
    exact Function.update_noteq ha' _ _
  · rw [Toggle_eq g pin _ a ha (by
      rw [Function.update_same]; exact xor_mask_lt _ _ (hbytes a) hk)]
    rw [Function.update_same, Function.update_idem, Nat.xor_cancel_right,
      Function.update_eq_self]

/-- Witness for C6: pin `C1` of an ATmega328P on a cleared register file. -/
theorem Toggle_involution_witness :
    ∃ a m1, PORTOF atmega328pPorts (9 / 8) = some a ∧
      Toggle atmega328pPorts 9 (fun _ => 0) = some m1 ∧
      (m1 a).testBit (9 % 8) = !((fun _ => 0 : Mem) a).testBit (9 % 8) ∧
      (∀ i, i ≠ 9 % 8 → (m1 a).testBit i = ((fun _ => 0 : Mem) a).testBit i) ∧
      (∀ a', a' ≠ a → m1 a' = (fun _ => 0 : Mem) a') ∧
      Toggle atmega328pPorts 9 m1 = some (fun _ => 0) :=
  Toggle_involution atmega328pPorts 9 (fun _ => 0) (by decide) (fun _ => Nat.zero_lt_succ 255)

/-- C7: setting a direction is idempotent and the last direction wins.  For
every pin below `NONE` and every register file, `In` and `Out` return; `In`
applied to the result of `In` changes nothing, `Out` applied to the result of
`Out` changes nothing, `Out` after `In` gives the state of `Out` alone and `In`
after `Out` the state of `In` alone. -/
theorem direction_idempotent (g : GpioConfig) (pin : Nat) (m : Mem) (hpin : pin < NONE g) :
    ∃ mi mo, In g pin m = some mi ∧ Out g pin m = some mo ∧
      In g pin mi = some mi ∧ Out g pin mo = some mo ∧
      Out g pin mi = some mo ∧ In g pin mo = some mi := by
  obtain ⟨a, _, ha⟩ := pin_resolves g pin hpin
  refine ⟨_, _, In_eq g pin m a ha, Out_eq g pin m a ha, ?_, ?_, ?_, ?_⟩
  · rw [In_eq g pin _ a ha, Function.update_same, Function.update_idem, clr_clr]
  · rw [Out_eq g pin _ a ha, Function.update_same, Function.update_idem, set_set]
  · rw [Out_eq g pin _ a ha, Function.update_same, Function.update_idem, clr_set]
  · rw [In_eq g pin _ a ha, Function.update_same, Function.update_idem, set_clr]

/-- Witness for C7: pin `C1` of an ATmega328P on a cleared register file. -/
theorem direction_idempotent_witness :
    ∃ mi mo, In atmega328pPorts 9 (fun _ => 0) = some mi ∧
      Out atmega328pPorts 9 (fun _ => 0) = some mo ∧
      In atmega328pPorts 9 mi = some mi ∧ Out atmega328pPorts 9 mo = some mo ∧
      Out atmega328pPorts 9 mi = some mo ∧ In atmega328pPorts 9 mo = some mi :=
  direction_idempotent atmega328pPorts 9 (fun _ => 0) (by decide)

/-- C9: `Get` reads the input register.  For every pin below `NONE` and every
register file, `Get` returns `1` when bit `pin mod 8` of the input register of
port `pin div 8` (two below the output register) is set and `0` otherwise; the
result is `0` or `1`, the register file is left as it was, and the result is
the same whatever the output and direction registers of that port hold. -/
theorem Get_reads_input_register (g : GpioConfig) (pin : Nat) (m : Mem)
    (hpin : pin < NONE g) :
    ∃ a, PORTOF g (pin / 8) = some a ∧ DDROF g (pin / 8) = some (a - 1) ∧
      PINOF g (pin / 8) = some (a - 2) ∧
      Get g pin m = some (if (m (a - 2)).testBit (pin % 8) = true then 1 else 0, m) ∧
      (∀ r m', Get g pin m = some (r, m') → (r = 0 ∨ r = 1) ∧ m' = m) ∧
      (∀ v w, (Get g pin (Function.update (Function.update m a v) (a - 1) w)).map Prod.fst
        = (Get g pin m).map Prod.fst) := by
  obtain ⟨a, ha0, ha⟩ := pin_resolves g pin hpin
  refine ⟨a, ha0, by simp [DDROF, ha0], by simp [PINOF, ha0], Get_eq g pin m a ha, ?_, ?_⟩
  · intro r m' h
    rw [Get_eq g pin m a ha] at h
    simp only [Option.some.injEq, Prod.mk.injEq] at h
    obtain ⟨hr, hm⟩ := h
    refine ⟨?_, hm.symm⟩
    rw [← hr]
    split
    · exact Or.inr rfl
    · exact Or.inl rfl
  · intro v w
    rw [Get_eq g pin m a ha, Get_eq g pin _ a ha]
    have h1 : a - 2 ≠ a - 1 := by omega
    have h2 : a - 2 ≠ a := by omega
    simp only [Option.map_some', Function.update_noteq h1, Function.update_noteq h2]

/-- Witness for C9: pin `C1` of an ATmega328P with only that input bit set. -/
theorem Get_reads_input_register_witness :
    ∃ a, PORTOF atmega328pPorts (9 / 8) = some a ∧ DDROF atmega328pPorts (9 / 8) = some (a - 1) ∧
      PINOF atmega328pPorts (9 / 8) = some (a - 2) ∧
      Get atmega328pPorts 9 (fun x => if x = 0x26 then 2 else 0) =
        some (if ((fun x => if x = 0x26 then 2 else 0 : Mem) (a - 2)).testBit (9 % 8) = true
          then 1 else 0, fun x => if x = 0x26 then 2 else 0) ∧
      (∀ r m', Get atmega328pPorts 9 (fun x => if x = 0x26 then 2 else 0) = some (r, m') →
        (r = 0 ∨ r = 1) ∧ m' = fun x => if x = 0x26 then 2 else 0) ∧
      (∀ v w, (Get atmega328pPorts 9
          (Function.update (Function.update (fun x => if x = 0x26 then 2 else 0) a v)
            (a - 1) w)).map Prod.fst
        = (Get atmega328pPorts 9 (fun x => if x = 0x26 then 2 else 0)).map Prod.fst) :=
  Get_reads_input_register atmega328pPorts 9 (fun x => if x = 0x26 then 2 else 0) (by decide)

/-! ## The baud divisor -/

theorem Init_eq (c : SciConfig) (baud : Nat) (s : SciState) (h : baud ≠ 0) :
    Init c baud s = some (afterInit c baud s) := by
  simp only [Init, GETBAUD, h, if_false]
  rfl

theorem Init_zero (c : SciConfig) (s : SciState) : Init c 0 s = none := by
  simp only [Init, GETBAUD, if_true]

theorem Init_readyState : Init atmega328p 9600 resetState = some readyState := rfl

/-- C8: baud divisor computation.  For every baud with
`1 ≤ baud ≤ F_CPU / 16`, `Init` returns, having programmed the baud registers
so that `256 * high + low` is `F_CPU / 16 / baud - 1` reduced modulo `2 ^ 16`,
the divisions truncating; the high register holds bits 15..8 and the low
register bits 7..0 of that value. -/
theorem Init_baud_divisor (c : SciConfig) (baud : Nat) (s : SciState)
    (hlo : 1 ≤ baud) (hhi : baud ≤ c.F_CPU / 16) :
    ∃ s', Init c baud s = some s' ∧
      256 * s'.BAUD_HIGH + s'.BAUD_LOW = (c.F_CPU / 16 / baud - 1) % 2 ^ 16 ∧
      s'.BAUD_HIGH = (c.F_CPU / 16 / baud - 1) % 2 ^ 16 / 2 ^ 8 ∧
      s'.BAUD_LOW = (c.F_CPU / 16 / baud - 1) % 2 ^ 16 % 2 ^ 8 ∧
      (∀ i, i < 8 → s'.BAUD_HIGH.testBit i
        = ((c.F_CPU / 16 / baud - 1) % 2 ^ 16).testBit (i + 8)) ∧
      (∀ i, i < 8 → s'.BAUD_LOW.testBit i
        = ((c.F_CPU / 16 / baud - 1) % 2 ^ 16).testBit i) := by
  have hq : 1 ≤ c.F_CPU / 16 / baud := (Nat.one_le_div_iff (by omega)).mpr hhi
  obtain ⟨q, hq'⟩ : ∃ q, c.F_CPU / 16 / baud = q + 1 := ⟨c.F_CPU / 16 / baud - 1, by omega⟩
  have hH : (afterInit c baud s).BAUD_HIGH = (c.F_CPU / 16 / baud - 1) % 2 ^ 16 / 2 ^ 8 := by
    simp only [afterInit, hq', Nat.shiftRight_eq_div_pow]
    norm_num
    omega
  have hL : (afterInit c baud s).BAUD_LOW = (c.F_CPU / 16 / baud - 1) % 2 ^ 16 % 2 ^ 8 := by
    simp only [afterInit, hq']
    norm_num
    omega
  refine ⟨afterInit c baud s, Init_eq c baud s (by omega), ?_, hH, hL, ?_, ?_⟩
  · rw [hH, hL]
    norm_num
    omega
  · intro i hi
    rw [hH, ← Nat.shiftRight_eq_div_pow, Nat.testBit_shiftRight, Nat.add_comm]
  · intro i hi
    rw [hL, Nat.testBit_mod_two_pow]
    simp [hi]

/-- Witness for C8: 9600 baud at 16 MHz gives the divisor 103. -/
theorem Init_baud_divisor_witness :
    ∃ s', Init atmega328p 9600 resetState = some s' ∧
      256 * s'.BAUD_HIGH + s'.BAUD_LOW = 103 ∧
      s'.BAUD_HIGH = 0 ∧
      s'.BAUD_LOW = 103 :=
  match Init_baud_divisor atmega328p 9600 resetState (by decide) (by decide) with
  | ⟨s', h0, h1, h2, h3, _⟩ => ⟨s', h0, h1, h2, h3⟩

/-! ## Pin access: `High`, `Low` and `Set` -/

/-- C11: `High` and `Low` change exactly one bit.  For every pin below `NONE`
and every register file, `High` sets and `Low` clears bit `pin mod 8` of the
output register of port `pin div 8`; the other seven bits of that register,
the direction and input registers of that port and every other register are
left as they were.  `Set` with a non-zero value is `High`, and `Set` with zero
is `Low`. -/
theorem High_Low_one_bit (g : GpioConfig) (pin : Nat) (m : Mem) (hpin : pin < NONE g) :
    ∃ a mh ml, PORTOF g (pin / 8) = some a ∧
      High g pin m = some mh ∧ Low g pin m = some ml ∧
      (mh a).testBit (pin % 8) = true ∧ (ml a).testBit (pin % 8) = false ∧
      (∀ i, i < 8 → i ≠ pin % 8 →
        (mh a).testBit i = (m a).testBit i ∧ (ml a).testBit i = (m a).testBit i) ∧
      (∀ a', a' ≠ a → mh a' = m a' ∧ ml a' = m a') ∧
      (mh (a - 1) = m (a - 1) ∧ mh (a - 2) = m (a - 2) ∧
        ml (a - 1) = m (a - 1) ∧ ml (a - 2) = m (a - 2)) ∧
      (∀ v, v ≠ 0 → Set g pin v m = High g pin m) ∧
      Set g pin 0 m = Low g pin m := by
  obtain ⟨a, ha0, ha⟩ := pin_resolves g pin hpin
  have hk : pin % 8 < 8 := Nat.mod_lt _ (by norm_num)
  have h1 : a - 1 ≠ a := by omega
  have h2 : a - 2 ≠ a := by omega
  refine ⟨a, _, _, ha0, High_eq g pin m a ha, Low_eq g pin m a ha, ?_, ?_, ?_, ?_, ?_, ?_, ?_⟩
  · rw [Function.update_same, testBit_set]
    simp [hk]
  · rw [Function.update_same, testBit_clr]
    simp
  · intro i hi hne
    rw [Function.update_same, Function.update_same, testBit_set, testBit_clr]
    simp [hi, Ne.symm hne]
  · intro a' ha'
    exact ⟨Function.update_noteq ha' _ _, Function.update_noteq ha' _ _⟩
  · exact ⟨Function.update_noteq h1 _ _, Function.update_noteq h2 _ _,
      Function.update_noteq h1 _ _, Function.update_noteq h2 _ _⟩
  · intro v hv
    simp [Set, hv]
  · simp [Set]

/-- Witness for C11: pin `C1` of an ATmega328P on a cleared register file. -/
theorem High_Low_one_bit_witness :
    ∃ a mh ml, PORTOF atmega328pPorts (9 / 8) = some a ∧
      High atmega328pPorts 9 (fun _ => 0) = some mh ∧
      Low atmega328pPorts 9 (fun _ => 0) = some ml ∧
      (mh a).testBit (9 % 8) = true ∧ (ml a).testBit (9 % 8) = false ∧
      (∀ i, i < 8 → i ≠ 9 % 8 →
        (mh a).testBit i = ((fun _ => 0 : Mem) a).testBit i ∧
          (ml a).testBit i = ((fun _ => 0 : Mem) a).testBit i) ∧
      (∀ a', a' ≠ a → mh a' = (fun _ => 0 : Mem) a' ∧ ml a' = (fun _ => 0 : Mem) a') ∧
      (mh (a - 1) = (fun _ => 0 : Mem) (a - 1) ∧ mh (a - 2) = (fun _ => 0 : Mem) (a - 2) ∧
        ml (a - 1) = (fun _ => 0 : Mem) (a - 1) ∧ ml (a - 2) = (fun _ => 0 : Mem) (a - 2)) ∧
      (∀ v, v ≠ 0 → Set atmega328pPorts 9 v (fun _ => 0) = High atmega328pPorts 9 (fun _ => 0)) ∧
      Set atmega328pPorts 9 0 (fun _ => 0) = Low atmega328pPorts 9 (fun _ => 0) :=
  High_Low_one_bit atmega328pPorts 9 (fun _ => 0) (by decide)

/-! ## When `PutChar` returns -/

theorem enqLoop_eq (fuel : Nat) (q : IOBuffer) (v : Nat) :
    enqLoop fuel q v = if fuel = 0 ∨ q.count = 8 then none else some (q.Enq v).2 := by
  by_cases h : q.count = 8
  · simp [h, enqLoop_full fuel q v h]
  · cases fuel with
    | zero => simp [enqLoop]
    | succ n => simp [h, enqLoop_room n q v h]

theorem PutChar_plain_eq (c : SciConfig) (fuel b : Nat) (s : SciState) (hne : b ≠ 10)
    (hb : s.mystdout.udata = some .TxBuffer) :
    PutChar c fuel b .mystdout s =
      if fuel < 2 ∨ s.TxBuffer.count = 8 then .error .spinning else .ok (afterPut c b s) := by
  cases fuel with
  | zero => simp [PutChar]
  | succ n =>
    rw [PutChar]
    simp only [hne, if_false, SciState.file, hb, SciState.buf, enqLoop_eq]
    by_cases h : n = 0 ∨ s.TxBuffer.count = 8
    · have h' : n + 1 < 2 ∨ s.TxBuffer.count = 8 := by omega
      simp only [h, h', if_true]
    · have h' : ¬ (n + 1 < 2 ∨ s.TxBuffer.count = 8) := by omega
      simp only [h, h', if_false]
      rfl

theorem afterPut_bound (c : SciConfig) (b : Nat) (s : SciState) :
    (afterPut c b s).mystdout = s.mystdout := rfl

theorem PutChar_newline_eq (c : SciConfig) (fuel : Nat) (s : SciState)
    (hb : s.mystdout.udata = some .TxBuffer) :
    PutChar c fuel 10 .mystdout s =
      if fuel < 3 ∨ s.TxBuffer.count = 8 ∨ (afterPut c 13 s).TxBuffer.count = 8
      then .error .spinning else .ok (afterPut c 10 (afterPut c 13 s)) := by
  cases fuel with
  | zero => simp [PutChar]
  | succ n =>
    rw [PutChar]
    simp only [if_true, PutChar_plain_eq c n 13 s (by decide) hb]
    by_cases h1 : n < 2 ∨ s.TxBuffer.count = 8
    · have h' : n + 1 < 3 ∨ s.TxBuffer.count = 8 ∨ (afterPut c 13 s).TxBuffer.count = 8 := by
        omega
      simp only [h1, h', if_true]
    · simp only [h1, if_false, SciState.file, afterPut_bound, hb, SciState.buf, enqLoop_eq]
      by_cases h2 : (afterPut c 13 s).TxBuffer.count = 8
      · simp only [h2, or_true, if_true]
      · have hn : ¬ (n = 0 ∨ (afterPut c 13 s).TxBuffer.count = 8) := by omega
        have h' : ¬ (n + 1 < 3 ∨ s.TxBuffer.count = 8 ∨
            (afterPut c 13 s).TxBuffer.count = 8) := by omega
        simp only [hn, h', if_false]
        rfl

theorem PutChar_eq (c : SciConfig) (fuel b : Nat) (s : SciState) (hwf : s.TxBuffer.WF)
    (hb : s.mystdout.udata = some .TxBuffer) :
    PutChar c fuel b .mystdout s =
      if fuel < (if b = 10 then 3 else 2) ∨ 8 < s.TxBuffer.count + (if b = 10 then 2 else 1)
      then .error .spinning else .ok (afterWrite c b s) := by
  have hc : s.TxBuffer.count ≤ 8 := hwf.2.2.1
  by_cases h : b = 10
  · subst h
    rw [PutChar_newline_eq c fuel s hb]
    simp only [if_true, afterWrite]
    by_cases h8 : s.TxBuffer.count = 8
    · have h' : fuel < 3 ∨ 8 < s.TxBuffer.count + 2 := by omega
      simp only [h8, true_or, or_true, if_true]
      simp
    · rw [afterPut_count c 13 s h8]
      by_cases hx : fuel < 3 ∨ s.TxBuffer.count = 8 ∨ s.TxBuffer.count + 1 = 8
      · have h' : fuel < 3 ∨ 8 < s.TxBuffer.count + 2 := by omega
        simp only [hx, h', if_true]
      · have h' : ¬ (fuel < 3 ∨ 8 < s.TxBuffer.count + 2) := by omega
        simp only [hx, h', if_false]
  · rw [PutChar_plain_eq c fuel b s h hb]
    simp only [h, if_false, afterWrite]
    by_cases hx : fuel < 2 ∨ s.TxBuffer.count = 8
    · have h' : fuel < 2 ∨ 8 < s.TxBuffer.count + 1 := by omega
      simp only [hx, h', if_true]
    · have h' : ¬ (fuel < 2 ∨ 8 < s.TxBuffer.count + 1) := by omega
      simp only [hx, h', if_false]

/-- C13: `PutChar` returns exactly when there is room.  With no interrupt
running, for every byte `b` and every well-formed transmit buffer bound to the
output stream, the call returns (for some amount of fuel) if and only if the
buffer holds at most 7 bytes when `b` is not a line-feed and at most 6 when it
is; with room it returns for every fuel of 3 or more; whenever it returns the
transmit-ready interrupt is enabled; without room it is still spinning
whatever the fuel.  For a line-feed on a buffer holding 7 bytes the recursive
call enqueues the carriage-return, filling the buffer, and the loop that would
enqueue the line-feed never ends. -/
theorem PutChar_returns_iff_room (c : SciConfig) (b : Nat) (s : SciState)
    (hu : c.UDRIE < 8) (hwf : s.TxBuffer.WF) (hbound : s.mystdout.udata = some .TxBuffer) :
    ((∃ fuel s', PutChar c fuel b .mystdout s = .ok s') ↔
      (if b = 10 then s.TxBuffer.Size ≤ 6 else s.TxBuffer.Size ≤ 7)) ∧
    ((if b = 10 then s.TxBuffer.Size ≤ 6 else s.TxBuffer.Size ≤ 7) →
      ∀ fuel, 3 ≤ fuel → ∃ s', PutChar c fuel b .mystdout s = .ok s') ∧
    (∀ fuel s', PutChar c fuel b .mystdout s = .ok s' → s'.CTRLB.testBit c.UDRIE = true) ∧
    (¬ (if b = 10 then s.TxBuffer.Size ≤ 6 else s.TxBuffer.Size ≤ 7) →
      ∀ fuel, PutChar c fuel b .mystdout s = .error .spinning) ∧
    (b = 10 → s.TxBuffer.Size = 7 →
      (∀ fuel, 2 ≤ fuel → PutChar c fuel 13 .mystdout s = .ok (afterPut c 13 s)) ∧
      (afterPut c 13 s).TxBuffer.contents = s.TxBuffer.contents ++ [13] ∧
      (afterPut c 13 s).TxBuffer.Size = 8 ∧
      (∀ fuel, enqLoop fuel (afterPut c 13 s).TxBuffer 10 = none) ∧
      (∀ fuel, PutChar c fuel 10 .mystdout s = .error .spinning)) := by
  have hc : s.TxBuffer.count ≤ 8 := hwf.2.2.1
  have hroom : (if b = 10 then s.TxBuffer.Size ≤ 6 else s.TxBuffer.Size ≤ 7) ↔
      ¬ 8 < s.TxBuffer.count + (if b = 10 then 2 else 1) := by
    simp only [Queue.Size]
    split <;> omega
  have hfuel : ∀ fuel, 3 ≤ fuel → ¬ fuel < (if b = 10 then 3 else 2) := by
    intro fuel h
    split <;> omega
  have hno : ¬ (if b = 10 then s.TxBuffer.Size ≤ 6 else s.TxBuffer.Size ≤ 7) →
      ∀ fuel, PutChar c fuel b .mystdout s = .error .spinning := by
    intro h fuel
    rw [PutChar_eq c fuel b s hwf hbound]
    have : 8 < s.TxBuffer.count + (if b = 10 then 2 else 1) := by
      by_contra hcon
      exact h (hroom.mpr hcon)
    simp only [this, or_true, if_true]
  have hyes : (if b = 10 then s.TxBuffer.Size ≤ 6 else s.TxBuffer.Size ≤ 7) →
      ∀ fuel, 3 ≤ fuel → PutChar c fuel b .mystdout s = .ok (afterWrite c b s) := by
    intro h fuel hf
    rw [PutChar_eq c fuel b s hwf hbound]
    have h1 := hroom.mp h
    have h2 := hfuel fuel hf
    simp only [h1, h2, or_self, if_false]
  refine ⟨⟨?_, fun h => ⟨3, _, hyes h 3 (le_refl 3)⟩⟩,
    fun h fuel hf => ⟨_, hyes h fuel hf⟩, ?_, hno, ?_⟩
  · rintro ⟨fuel, s', h⟩
    by_contra hcon
    rw [hno hcon fuel] at h
    cases h
  · intro fuel s' h
    rw [PutChar_eq c fuel b s hwf hbound] at h
    by_cases hx : fuel < (if b = 10 then 3 else 2) ∨
        8 < s.TxBuffer.count + (if b = 10 then 2 else 1)
    · rw [if_pos hx] at h
      cases h
    · rw [if_neg hx] at h
      cases h
      exact afterWrite_udrie c b s hu
  · intro hb h7
    subst hb
    have h7' : s.TxBuffer.count = 7 := h7
    have hne : s.TxBuffer.count ≠ 8 := by omega
    have hfull : (afterPut c 13 s).TxBuffer.count = 8 := by
      rw [afterPut_count c 13 s hne, h7']
    refine ⟨?_, afterPut_contents c 13 s hwf hne, hfull,
      fun fuel => enqLoop_full fuel _ 10 hfull, ?_⟩
    · intro fuel hf
      rw [PutChar_plain_eq c fuel 13 s (by decide) hbound]
      have : ¬ (fuel < 2 ∨ s.TxBuffer.count = 8) := by omega
      simp only [this, if_false]
    · apply hno
      simp only [if_true, Queue.Size, h7']
      omega

/-- Witness for C13: a line-feed written right after `Init` returns with the
transmit-ready interrupt enabled; written to a buffer holding 7 bytes it
spins. -/
theorem PutChar_returns_iff_room_witness :
    (∃ s', PutChar atmega328p 3 10 .mystdout readyState = .ok s') ∧
    (∀ fuel, PutChar atmega328p fuel 10 .mystdout
      { readyState with
        TxBuffer := { data := [1, 2, 3, 4, 5, 6, 7, 0], head := 0, tail := 7, count := 7 } }
      = .error .spinning) :=
  ⟨(PutChar_returns_iff_room atmega328p 10 readyState
      (by decide) (by decide) (by decide)).2.1 (by decide) 3 (by decide),
   ((PutChar_returns_iff_room atmega328p 10
      { readyState with
        TxBuffer := { data := [1, 2, 3, 4, 5, 6, 7, 0], head := 0, tail := 7, count := 7 } }
      (by decide) (by decide) (by decide)).2.2.2.2 rfl rfl).2.2.2.2⟩

/-! ## Writing a sequence and draining it -/

theorem crExpand_cons (b : Nat) (bs : List Nat) :
    crExpand (b :: bs) = (if b = 10 then [13, 10] else [b]) ++ crExpand bs := by
  simp [crExpand, List.flatMap_cons]

theorem afterWrite_count (c : SciConfig) (b : Nat) (s : SciState) (hwf : s.TxBuffer.WF)
    (hroom : s.TxBuffer.count + (if b = 10 then 2 else 1) ≤ 8) :
    (afterWrite c b s).TxBuffer.count = s.TxBuffer.count + (if b = 10 then 2 else 1) := by
  rw [← Queue.contents_length, afterWrite_contents c b s hwf hroom, List.length_append,
    Queue.contents_length]
  split <;> rfl

theorem writeAll_contents (c : SciConfig) (k : Nat) (bs : List Nat) (s : SciState)
    (hu : c.UDRIE < 8) (hwf : s.TxBuffer.WF) (hb : s.mystdout.udata = some .TxBuffer)
    (hlen : s.TxBuffer.count + (crExpand bs).length ≤ 8) :
    ∃ s1, writeAll c (k + 3) bs s = .ok s1 ∧
      s1.TxBuffer.contents = s.TxBuffer.contents ++ crExpand bs ∧
      s1.TxBuffer.WF ∧
      (bs ≠ [] → s1.CTRLB.testBit c.UDRIE = true) := by
  induction bs generalizing s with
  | nil => exact ⟨s, rfl, by simp [crExpand], hwf, fun h => absurd rfl h⟩
  | cons b bs ih =>
    rw [crExpand_cons, List.length_append] at hlen
    have hroom : s.TxBuffer.count + (if b = 10 then 2 else 1) ≤ 8 := by
      have : (if b = 10 then [13, 10] else [b]).length = (if b = 10 then 2 else 1) := by
        split <;> rfl
      omega
    have hstep := PutChar_room c k b s hb hroom
    have hwf1 := afterWrite_wf c b s hwf
    have hb1 : (afterWrite c b s).mystdout.udata = some .TxBuffer := by
      rw [(afterWrite_frame c b s).2.1]; exact hb
    have hcount1 := afterWrite_count c b s hwf hroom
    have hlen1 : (afterWrite c b s).TxBuffer.count + (crExpand bs).length ≤ 8 := by
      have : (if b = 10 then [13, 10] else [b]).length = (if b = 10 then 2 else 1) := by
        split <;> rfl
      omega
    obtain ⟨s1, h1, h2, h3, h4⟩ := ih (afterWrite c b s) hwf1 hb1 hlen1
    refine ⟨s1, ?_, ?_, h3, ?_⟩
    · simp only [writeAll, hstep, h1]
    · rw [h2, afterWrite_contents c b s hwf hroom, crExpand_cons, List.append_assoc]
    · intro _
      by_cases hbs : bs = []
      · subst hbs
        simp only [writeAll] at h1
        cases h1
        exact afterWrite_udrie c b s hu
      · exact h4 hbs

theorem fireTx_drain (c : SciConfig) (l : List Nat) (s : SciState) (hwf : s.TxBuffer.WF)
    (hl : s.TxBuffer.contents = l) :
    (fireTx c l.length s).1 = l.map (fun b => (b, s.CTRLB.testBit c.UDRIE)) ∧
      (fireTx c l.length s).2.TxBuffer.count = 0 ∧
      (fireTx c l.length s).2.CTRLB = s.CTRLB := by
  induction l generalizing s with
  | nil =>
    refine ⟨rfl, ?_, rfl⟩
    have := Queue.contents_length s.TxBuffer
    rw [hl] at this
    exact this.symm
  | cons x rest ih =>
    have hc : s.TxBuffer.count ≠ 0 := by
      rw [← Queue.contents_length, hl]
      simp
    have hD := Queue.Deq_contents s.TxBuffer 0 hwf hc
    rw [hl] at hD
    have hx : (s.TxBuffer.Deq 0).2.1 = x := (List.head_eq_of_cons_eq hD).symm
    have hrest : (s.TxBuffer.Deq 0).2.2.contents = rest := (List.tail_eq_of_cons_eq hD).symm
    have hstep := ISR_TX_data c s hc
    have hwf1 : (ISR_TX c s).TxBuffer.WF := by
      rw [hstep]; exact Queue.Deq_wf s.TxBuffer 0 hwf
    have hl1 : (ISR_TX c s).TxBuffer.contents = rest := by
      rw [hstep]; exact hrest
    have hctrl : (ISR_TX c s).CTRLB = s.CTRLB := by
      rw [hstep]
    have hdata : (ISR_TX c s).DATAR = x := by
      rw [hstep]; exact hx
    obtain ⟨h1, h2, h3⟩ := ih (ISR_TX c s) hwf1 hl1
    refine ⟨?_, ?_, ?_⟩
    · simp only [List.length_cons, fireTx, List.map_cons, h1, hctrl, hdata]
    · simpa only [List.length_cons, fireTx] using h2
    · simp only [List.length_cons, fireTx]
      rw [h3, hctrl]

theorem fireTx_add (c : SciConfig) (n k : Nat) (s : SciState) :
    fireTx c (n + k) s =
      ((fireTx c n s).1 ++ (fireTx c k (fireTx c n s).2).1, (fireTx c k (fireTx c n s).2).2) := by
  induction n generalizing s with
  | zero => simp [fireTx]
  | succ n ih =>
    have e : n + 1 + k = (n + k) + 1 := by omega
    rw [e]
    simp only [fireTx, ih (ISR_TX c s), List.cons_append]

/-- C12: the transmit direction is FIFO and goes idle only after draining.
For every byte sequence whose carriage-return expanded form has length
`m ≤ 8`, writing it with `PutChar` into an empty transmit buffer, with no
interrupt in between, returns with the buffer holding the expanded sequence.
Of `m + 1` transmit-ready interrupts fired then, the first `m` leave in the
data register, one after the other and in order, exactly the bytes of the
expanded sequence, with the transmit-ready interrupt still enabled after each
of them; the last one finds the buffer empty, leaves the data register as it
was and disables the interrupt. -/
theorem transmit_fifo_then_idle (c : SciConfig) (fuel : Nat) (bs : List Nat) (s : SciState)
    (hfuel : 3 ≤ fuel) (hu : c.UDRIE < 8) (hwf : s.TxBuffer.WF)
    (hbound : s.mystdout.udata = some .TxBuffer) (hempty : s.TxBuffer.Size = 0)
    (hlen : (crExpand bs).length ≤ 8) :
    ∃ s1, writeAll c fuel bs s = .ok s1 ∧
      s1.TxBuffer.contents = crExpand bs ∧
      (fireTx c (crExpand bs).length s1).1 = (crExpand bs).map (fun b => (b, true)) ∧
      (fireTx c (crExpand bs).length s1).2.TxBuffer.Size = 0 ∧
      (ISR_TX c (fireTx c (crExpand bs).length s1).2).DATAR
        = (fireTx c (crExpand bs).length s1).2.DATAR ∧
      (ISR_TX c (fireTx c (crExpand bs).length s1).2).CTRLB.testBit c.UDRIE = false ∧
      (fireTx c ((crExpand bs).length + 1) s1).1 =
        (crExpand bs).map (fun b => (b, true)) ++
          [((fireTx c (crExpand bs).length s1).2.DATAR, false)] := by
  obtain ⟨k, rfl⟩ : ∃ k, fuel = k + 3 := ⟨fuel - 3, by omega⟩
  have h0 : s.TxBuffer.count = 0 := hempty
  obtain ⟨s1, h1, h2, h3, h4⟩ :=
    writeAll_contents c k bs s hu hwf hbound (by rw [h0]; omega)
  rw [contents_nil_of_count _ h0, List.nil_append] at h2
  obtain ⟨d1, d2, d3⟩ := fireTx_drain c (crExpand bs) s1 h3 h2
  have hE := ISR_TX_empty c (fireTx c (crExpand bs).length s1).2 d2
  have htrace : (fireTx c (crExpand bs).length s1).1
      = (crExpand bs).map (fun b => (b, true)) := by
    rw [d1]
    by_cases hbs : bs = []
    · subst hbs
      rfl
    · rw [h4 hbs]
  have hdata : (ISR_TX c (fireTx c (crExpand bs).length s1).2).DATAR
      = (fireTx c (crExpand bs).length s1).2.DATAR := by
    rw [hE]
  have hoff : (ISR_TX c (fireTx c (crExpand bs).length s1).2).CTRLB.testBit c.UDRIE
      = false := by
    rw [hE]
    exact testBit_clear_bit _ _
  refine ⟨s1, h1, h2, htrace, d2, hdata, hoff, ?_⟩
  rw [fireTx_add, htrace]
  simp only [fireTx, hdata, hoff]

/-- Witness for C12: the line `"Hi\n"` written right after `Init` and drained
by five transmit-ready interrupts. -/
theorem transmit_fifo_then_idle_witness :
    ∃ s1, writeAll atmega328p 3 [72, 105, 10] readyState = .ok s1 ∧
      s1.TxBuffer.contents = [72, 105, 13, 10] ∧
      (fireTx atmega328p 4 s1).1 = [(72, true), (105, true), (13, true), (10, true)] ∧
      (fireTx atmega328p 4 s1).2.TxBuffer.Size = 0 ∧
      (ISR_TX atmega328p (fireTx atmega328p 4 s1).2).DATAR = (fireTx atmega328p 4 s1).2.DATAR ∧
      (ISR_TX atmega328p (fireTx atmega328p 4 s1).2).CTRLB.testBit atmega328p.UDRIE = false ∧
      (fireTx atmega328p 5 s1).1 =
        [(72, true), (105, true), (13, true), (10, true)] ++
          [((fireTx atmega328p 4 s1).2.DATAR, false)] :=
  transmit_fifo_then_idle atmega328p 3 [72, 105, 10] readyState
    (by decide) (by decide) (by decide) (by decide) (by decide) (by decide)

/-! ## The state `Init` leaves -/

theorem afterInit_CTRLB_testBit (c : SciConfig) (baud : Nat) (s : SciState) (i : Nat)
    (h1 : c.RXCIE < 8) (h2 : c.RXEN < 8) (h3 : c.TXEN < 8) :
    (afterInit c baud s).CTRLB.testBit i =
      (decide (i = c.RXCIE) || decide (i = c.RXEN) || decide (i = c.TXEN)) := by
  simp only [afterInit, testBit_mod_256, Nat.testBit_lor, Nat.one_shiftLeft, Nat.testBit_two_pow]
  by_cases hi : i < 8
  · simp [hi, eq_comm]
  · have e1 : i ≠ c.RXCIE := by omega
    have e2 : i ≠ c.RXEN := by omega
    have e3 : i ≠ c.TXEN := by omega
    simp [hi, e1, e2, e3]

theorem setBuf_CTRLB (s : SciState) (r : BufferRef) (q : IOBuffer) :
    (s.setBuf r q).CTRLB = s.CTRLB := by
  cases r <;> rfl

theorem GetChar_CTRLB (c : SciConfig) (fuel : Nat) (stream : FileRef) (s s' : SciState)
    (v : Int) (h : GetChar c fuel stream s = .ok (v, s')) : s'.CTRLB = s.CTRLB := by
  simp only [GetChar] at h
  cases hu : (s.file stream).udata with
  | none => simp [hu] at h
  | some buff =>
    simp only [hu] at h
    cases hd : deqLoop fuel (s.buf buff) 0 with
    | none => simp [hd] at h
    | some p =>
      simp only [hd, Except.ok.injEq, Prod.mk.injEq] at h
      rw [← h.2]
      exact setBuf_CTRLB s buff p.2

theorem ISR_TX_keeps_udrie_clear (c : SciConfig) (s : SciState)
    (h : s.CTRLB.testBit c.UDRIE = false) : (ISR_TX c s).CTRLB.testBit c.UDRIE = false := by
  by_cases h0 : s.TxBuffer.count = 0
  · rw [ISR_TX_empty c s h0]
    exact testBit_clear_bit _ _
  · rw [ISR_TX_data c s h0]
    exact h

theorem applyEvent_keeps_udrie_clear (c : SciConfig) (fuel : Nat) (s s' : SciState) (e : Event)
    (hnw : e.notWrite = true) (hstep : applyEvent c fuel s e = .ok s')
    (h : s.CTRLB.testBit c.UDRIE = false) : s'.CTRLB.testBit c.UDRIE = false := by
  cases e with
  | rx b =>
    simp only [applyEvent, Except.ok.injEq] at hstep
    rw [← hstep]
    exact h
  | tx =>
    simp only [applyEvent, Except.ok.injEq] at hstep
    rw [← hstep]
    exact ISR_TX_keeps_udrie_clear c s h
  | write b => simp [Event.notWrite] at hnw
  | read =>
    simp only [applyEvent] at hstep
    cases hg : GetChar c fuel .mystdin s with
    | error err => simp [hg] at hstep
    | ok p =>
      simp only [hg, Except.ok.injEq] at hstep
      rw [← hstep, GetChar_CTRLB c fuel .mystdin s p.2 p.1 hg]
      exact h

theorem runEvents_keeps_udrie_clear (c : SciConfig) (fuel : Nat) (evs : List Event)
    (s s' : SciState) (hnw : ∀ e ∈ evs, e.notWrite = true)
    (hrun : runEvents c fuel s evs = .ok s') (h : s.CTRLB.testBit c.UDRIE = false) :
    s'.CTRLB.testBit c.UDRIE = false := by
  induction evs generalizing s with
  | nil =>
    simp only [runEvents, Except.ok.injEq] at hrun
    rw [← hrun]
    exact h
  | cons e es ih =>
    simp only [runEvents] at hrun
    cases hst : applyEvent c fuel s e with
    | error err => simp [hst] at hrun
    | ok s1 =>
      simp only [hst] at hrun
      exact ih s1 (fun e' he' => hnw e' (List.mem_cons_of_mem _ he')) hrun
        (applyEvent_keeps_udrie_clear c fuel s s1 e (hnw e (List.mem_cons_self _ _)) hst h)

theorem PutChar_ok_udrie (c : SciConfig) (fuel b : Nat) (stream : FileRef) (s s' : SciState)
    (hu : c.UDRIE < 8) (h : PutChar c fuel b stream s = .ok s') :
    s'.CTRLB.testBit c.UDRIE = true := by
  cases fuel with
  | zero => simp [PutChar] at h
  | succ n =>
    rw [PutChar] at h
    cases h1 : (if b = 10 then PutChar c n 13 stream s else Except.ok s) with
    | error e => simp [h1] at h
    | ok s1 =>
      simp only [h1] at h
      cases h2 : (s1.file stream).udata with
      | none => simp [h2] at h
      | some buff =>
        simp only [h2] at h
        cases h3 : enqLoop n (s1.buf buff) b with
        | none => simp [h3] at h
        | some q =>
          simp only [h3, Except.ok.injEq] at h
          rw [← h]
          exact testBit_set_bit _ _ hu

theorem afterInit_buffers (c : SciConfig) (baud : Nat) (s : SciState) :
    (afterInit c baud s).TxBuffer = s.TxBuffer ∧ (afterInit c baud s).RxBuffer = s.RxBuffer := by
  unfold afterInit
  exact ⟨rfl, rfl⟩

theorem afterInit_streams (c : SciConfig) (baud : Nat) (s : SciState) :
    (afterInit c baud s).stdout = some .mystdout ∧ (afterInit c baud s).stdin = some .mystdin ∧
      (afterInit c baud s).mystdout.udata = some .TxBuffer ∧
      (afterInit c baud s).mystdin.udata = some .RxBuffer := by
  unfold afterInit
  exact ⟨rfl, rfl, rfl, rfl⟩

theorem Size_of_bound (s : SciState) (h1 : s.mystdout.udata = some .TxBuffer)
    (h2 : s.mystdin.udata = some .RxBuffer) :
    Size .mystdout s = .ok s.TxBuffer.Size ∧ Size .mystdin s = .ok s.RxBuffer.Size := by
  constructor
  · simp only [Size, SciState.file, h1, SciState.buf]
  · simp only [Size, SciState.file, h2, SciState.buf]

/-- C14, as stated, fails: it speaks of the state after `Init` for every baud,
but for a baud of 0 the first statement of `Init` divides by zero and the call
delivers no state, on the ATmega328P started from `resetState` as from any
other state. -/
theorem Init_zero_baud_delivers_no_state :
    Init atmega328p 0 resetState = none ∧
    ¬ ∃ s0, Init atmega328p 0 resetState = some s0 ∧
      s0.CTRLB.testBit atmega328p.UDRIE = false := by
  have h := Init_zero atmega328p resetState
  refine ⟨h, ?_⟩
  rintro ⟨s0, h0, _⟩
  rw [h] at h0
  cases h0

/-- C14, amended: `Init` leaves the transmit side idle, for every baud other
than 0.  The bit positions come from the chip header: they lie within the
register and the transmit-ready bit is none of the three that `Init` sets.
Then, for every prior state and every non-zero baud, `Init` returns, and
control register B then has the receive-complete interrupt enable, receiver
enable and transmitter enable bits set and every other bit clear; the
transmit-ready interrupt enable bit is clear, stays clear over any run of
events that contains no write, and is set by any write that returns.  The
output stream carries the transmit buffer and the input stream the receive
buffer, both buffers are left as they were, and `Size` of either stream is the
occupancy of its buffer. -/
theorem Init_transmit_idle (c : SciConfig) (baud : Nat) (s : SciState) (hbaud : baud ≠ 0)
    (h1 : c.RXCIE < 8) (h2 : c.RXEN < 8) (h3 : c.TXEN < 8) (hu : c.UDRIE < 8)
    (hd1 : c.UDRIE ≠ c.RXCIE) (hd2 : c.UDRIE ≠ c.RXEN) (hd3 : c.UDRIE ≠ c.TXEN) :
    ∃ s0, Init c baud s = some s0 ∧
      (∀ i, s0.CTRLB.testBit i =
        (decide (i = c.RXCIE) || decide (i = c.RXEN) || decide (i = c.TXEN))) ∧
      s0.CTRLB.testBit c.UDRIE = false ∧
      (∀ fuel evs s', (∀ e ∈ evs, e.notWrite = true) →
        runEvents c fuel s0 evs = .ok s' → s'.CTRLB.testBit c.UDRIE = false) ∧
      (∀ fuel b s', PutChar c fuel b .mystdout s0 = .ok s' →
        s'.CTRLB.testBit c.UDRIE = true) ∧
      (s0.stdout = some .mystdout ∧ s0.stdin = some .mystdin ∧
        s0.mystdout.udata = some .TxBuffer ∧ s0.mystdin.udata = some .RxBuffer) ∧
      (s0.TxBuffer = s.TxBuffer ∧ s0.RxBuffer = s.RxBuffer) ∧
      Size .mystdout s0 = .ok s.TxBuffer.Size ∧
      Size .mystdin s0 = .ok s.RxBuffer.Size := by
  have hclear : (afterInit c baud s).CTRLB.testBit c.UDRIE = false := by
    rw [afterInit_CTRLB_testBit c baud s c.UDRIE h1 h2 h3]
    simp [hd1, hd2, hd3]
  obtain ⟨b1, b2⟩ := afterInit_buffers c baud s
  obtain ⟨s1, s2, s3, s4⟩ := afterInit_streams c baud s
  obtain ⟨z1, z2⟩ := Size_of_bound (afterInit c baud s) s3 s4
  rw [b1] at z1
  rw [b2] at z2
  refine ⟨afterInit c baud s, Init_eq c baud s hbaud,
    fun i => afterInit_CTRLB_testBit c baud s i h1 h2 h3, hclear, ?_, ?_,
    ⟨s1, s2, s3, s4⟩, ⟨b1, b2⟩, z1, z2⟩
  · intro fuel evs s' hnw hrun
    exact runEvents_keeps_udrie_clear c fuel evs _ s' hnw hrun hclear
  · intro fuel b s' h
    exact PutChar_ok_udrie c fuel b .mystdout _ s' hu h

/-- Witness for the amended C14: `Init` at 9600 baud on the ATmega328P started
from `resetState`. -/
theorem Init_transmit_idle_witness :
    ∃ s0, Init atmega328p 9600 resetState = some s0 ∧
      s0.CTRLB.testBit atmega328p.UDRIE = false ∧
      (s0.stdout = some .mystdout ∧ s0.stdin = some .mystdin ∧
        s0.mystdout.udata = some .TxBuffer ∧ s0.mystdin.udata = some .RxBuffer) ∧
      Size .mystdout s0 = .ok resetState.TxBuffer.Size ∧
      Size .mystdin s0 = .ok resetState.RxBuffer.Size :=
  match Init_transmit_idle atmega328p 9600 resetState (by decide) (by decide) (by decide)
      (by decide) (by decide) (by decide) (by decide) (by decide) with
  | ⟨s0, h0, _, hclear, _, _, hstreams, _, z1, z2⟩ => ⟨s0, h0, hclear, hstreams, z1, z2⟩

/-! ## Pin access: the pin numbering -/

theorem flatMap_MAKEPINS_get (l : List PortName) (p : Nat) :
    (l.flatMap MAKEPINS)[p]? = (l[p / 8]?).map (fun x => (x, p % 8)) := by
  induction l generalizing p with
  | nil => simp
  | cons x xs ih =>
    rw [List.flatMap_cons]
    by_cases hp : p < 8
    · rw [List.getElem?_append_left (by simpa [MAKEPINS] using hp)]
      have h0 : p / 8 = 0 := by omega
      have h1 : p % 8 = p := by omega
      rw [h0, h1]
      interval_cases p <;> simp [MAKEPINS]
    · have hlen : (MAKEPINS x).length = 8 := rfl
      rw [List.getElem?_append_right (by rw [hlen]; omega), hlen, ih (p - 8)]
      have h0 : p / 8 = (p - 8) / 8 + 1 := by omega
      have h1 : (p - 8) % 8 = p % 8 := by omega
      rw [h0, h1, List.getElem?_cons_succ]

theorem pin_names_port (g : GpioConfig) (p : Nat) (hp : p < NONE g) :
    ∃ x, (allPorts.filter g.present)[p / 8]? = some x ∧ g.present x = true ∧
      (pinEnumerators g)[p]? = some (x, p % 8) ∧ PORTOF g (p / 8) = some (g.addr x) := by
  obtain ⟨_, hlt⟩ := pin_port g p hp
  rw [PortBanks, List.length_map] at hlt
  have hx : (allPorts.filter g.present)[p / 8]? = some (allPorts.filter g.present)[p / 8] :=
    List.getElem?_eq_getElem hlt
  refine ⟨_, hx, ?_, ?_, ?_⟩
  · exact (List.mem_filter.mp (List.getElem?_mem hx)).2
  · rw [pinEnumerators, flatMap_MAKEPINS_get, hx]
    rfl
  · rw [PORTOF, PortBanks, List.getElem?_map, hx]
    rfl

theorem pinMask_testBit (k i : Nat) (hk : k < 8) :
    ((1 <<< k) % 256).testBit i = decide (i = k) := by
  rw [pinMask_eq k hk, Nat.testBit_two_pow]
  by_cases h : k = i
  · simp [h]
  · simp [h, Ne.symm h]

/-- C15: pin resolution is in range and injective.  For every choice of
present ports, `NONE` is 8 times the number of entries of `PortBanks`.  Every
pin `p` below `NONE` is the enumerator of bit `p mod 8` of a present port; its
port index `p div 8` fits the 8-bit variable, is a valid index into
`PortBanks` and selects the entry of that same port, and its mask
`1 << (p mod 8)` fits a byte and has exactly the one bit `p mod 8` set.  Two
pins below `NONE` with the same port index and the same mask are equal.  For
`NONE` itself the port index is one past the end of `PortBanks`. -/
theorem pin_resolution (g : GpioConfig) :
    NONE g = 8 * (PortBanks g).length ∧
    (∀ p, p < NONE g →
      (p / 8) % 256 = p / 8 ∧ p / 8 < (PortBanks g).length ∧
      (∃ x, g.present x = true ∧ (pinEnumerators g)[p]? = some (x, p % 8) ∧
        PORTOF g (p / 8) = some (g.addr x)) ∧
      (1 <<< (p % 8)) % 256 = 1 <<< (p % 8) ∧
      (∀ i, ((1 <<< (p % 8)) % 256).testBit i = decide (i = p % 8))) ∧
    (∀ p q, p < NONE g → q < NONE g →
      ((p / 8) % 256, (1 <<< (p % 8)) % 256) = ((q / 8) % 256, (1 <<< (q % 8)) % 256) →
      p = q) ∧
    NONE g / 8 = (PortBanks g).length ∧
    PORTOF g ((NONE g / 8) % 256) = none := by
  have hN := NONE_eq g
  have hL := PortBanks_length_le g
  refine ⟨hN, ?_, ?_, by omega, ?_⟩
  · intro p hp
    have hk : p % 8 < 8 := Nat.mod_lt _ (by norm_num)
    obtain ⟨h1, h2⟩ := pin_port g p hp
    obtain ⟨x, _, hx1, hx2, hx3⟩ := pin_names_port g p hp
    refine ⟨h1, h2, ⟨x, hx1, hx2, hx3⟩, ?_, fun i => pinMask_testBit (p % 8) i hk⟩
    rw [pinMask_eq _ hk, Nat.one_shiftLeft]
  · intro p q hp hq h
    have hkp : p % 8 < 8 := Nat.mod_lt _ (by norm_num)
    have hkq : q % 8 < 8 := Nat.mod_lt _ (by norm_num)
    simp only [Prod.mk.injEq] at h
    obtain ⟨h1, h2⟩ := h
    rw [(pin_port g p hp).1, (pin_port g q hq).1] at h1
    rw [pinMask_eq _ hkp, pinMask_eq _ hkq] at h2
    have h3 : p % 8 = q % 8 := Nat.pow_right_injective (le_refl 2) h2
    omega
  · have e : (NONE g / 8) % 256 = (PortBanks g).length := by omega
    rw [e, PORTOF]
    exact List.getElem?_eq_none (le_refl _)

/-- Witness for C15: on an ATmega328P (ports B, C, D) `NONE` is 24, and pin 9
is `C1`, resolved to the second entry of `PortBanks`, the address of `PORTC`. -/
theorem pin_resolution_witness :
    NONE atmega328pPorts = 8 * (PortBanks atmega328pPorts).length ∧
    (∃ x, atmega328pPorts.present x = true ∧
      (pinEnumerators atmega328pPorts)[9]? = some (x, 9 % 8) ∧
      PORTOF atmega328pPorts (9 / 8) = some (atmega328pPorts.addr x)) ∧
    PORTOF atmega328pPorts ((NONE atmega328pPorts / 8) % 256) = none :=
  ⟨(pin_resolution atmega328pPorts).1,
   ((pin_resolution atmega328pPorts).2.1 9 (by decide)).2.2.1,
   (pin_resolution atmega328pPorts).2.2.2.2⟩

end Savr
